import Mathlib

/-!
Shallow embedding of the quest-script toolchain core (src/QuestScript.cc):
build enumeration and version flags, the opcode dictionary (restricted to the
rows exercised by the concrete programs verified below), the episode detector
`find_quest_episode_from_script`, the effective-language selection of
`disassemble_quest_script`, the assembler argument encoders of
`assemble_quest_script`, the function-table generation, the reachability
decode walk of the disassembler in reassembly mode, and the register
assigner (`RegisterAssigner`).

Byte buffers are `List Nat` with every element a byte value; machine
integers are `Nat`/`Int` with explicit masking where the source masks.
Fallible code returns `Except String` or `Option`.  The cursor-bearing
byte reader (phosg `StringReader`) is modelled by explicit positions into
the byte list; its `get` primitives check bounds before consuming and do
not advance on failure, matching the library used by the source.
-/

namespace QuestScript

instance {ε α : Type _} [DecidableEq ε] [DecidableEq α] : DecidableEq (Except ε α)
  | .ok a, .ok b =>
    if h : a = b then .isTrue (by rw [h]) else .isFalse (by intro hc; injection hc; contradiction)
  | .ok _, .error _ => .isFalse (by intro h; exact Except.noConfusion h)
  | .error _, .ok _ => .isFalse (by intro h; exact Except.noConfusion h)
  | .error e, .error f =>
    if h : e = f then .isTrue (by rw [h]) else .isFalse (by intro hc; injection hc; contradiction)

/-- The `Version` enumeration (14 values; order fixed by the static
assertions on the `F_*` flag constants in the source). -/
inductive Version
  | PC_PATCH
  | BB_PATCH
  | DC_NTE
  | DC_V1_11_2000_PROTOTYPE
  | DC_V1
  | DC_V2
  | PC_NTE
  | PC_V2
  | GC_NTE
  | GC_V3
  | GC_EP3_NTE
  | GC_EP3
  | XB_V3
  | BB_V4
deriving DecidableEq

/-- Numeric value of a `Version` (its position in the enum). -/
def Version.toNat : Version → Nat
  | .PC_PATCH => 0
  | .BB_PATCH => 1
  | .DC_NTE => 2
  | .DC_V1_11_2000_PROTOTYPE => 3
  | .DC_V1 => 4
  | .DC_V2 => 5
  | .PC_NTE => 6
  | .PC_V2 => 7
  | .GC_NTE => 8
  | .GC_V3 => 9
  | .GC_EP3_NTE => 10
  | .GC_EP3 => 11
  | .XB_V3 => 12
  | .BB_V4 => 13

/-- `v_flag(v) = 1 << static_cast<uint16_t>(v)`. -/
def vFlag (v : Version) : Nat := 1 <<< v.toNat

def F_PASS : Nat := 0x0001
def F_ARGS : Nat := 0x0002
def F_DC_NTE : Nat := 0x0004
def F_DC_112000 : Nat := 0x0008
def F_DC_V1 : Nat := 0x0010
def F_DC_V2 : Nat := 0x0020
def F_PC_NTE : Nat := 0x0040
def F_PC_V2 : Nat := 0x0080
def F_GC_NTE : Nat := 0x0100
def F_GC_V3 : Nat := 0x0200
def F_GC_EP3TE : Nat := 0x0400
def F_GC_EP3 : Nat := 0x0800
def F_XB_V3 : Nat := 0x1000
def F_BB_V4 : Nat := 0x2000
def F_RET : Nat := 0x4000
def F_SET_EPISODE : Nat := 0x8000

def F_V0_V2 : Nat :=
  F_DC_NTE ||| F_DC_112000 ||| F_DC_V1 ||| F_DC_V2 ||| F_PC_NTE ||| F_PC_V2 ||| F_GC_NTE
def F_V0_V4 : Nat :=
  F_DC_NTE ||| F_DC_112000 ||| F_DC_V1 ||| F_DC_V2 ||| F_PC_NTE ||| F_PC_V2 ||| F_GC_NTE |||
  F_GC_V3 ||| F_GC_EP3TE ||| F_GC_EP3 ||| F_XB_V3 ||| F_BB_V4
def F_V3_V4 : Nat :=
  F_GC_V3 ||| F_GC_EP3TE ||| F_GC_EP3 ||| F_XB_V3 ||| F_BB_V4
def F_HAS_ARGS : Nat := F_V3_V4

/-- Argument wire types (`QuestScriptOpcodeDefinition::Argument::Type`). -/
inductive ArgType
  | LABEL16
  | LABEL16_SET
  | LABEL32
  | REG
  | REG_SET
  | REG_SET_FIXED
  | REG32
  | REG32_SET_FIXED
  | INT8
  | INT16
  | INT32
  | FLOAT32
  | CSTRING
deriving DecidableEq

/-- Label data types (`QuestScriptOpcodeDefinition::Argument::DataType`). -/
inductive DataType
  | NONE
  | SCRIPT
  | DATA
  | CSTRING
  | PLAYER_STATS
  | PLAYER_VISUAL_CONFIG
  | RESIST_DATA
  | ATTACK_DATA
  | MOVEMENT_DATA
  | IMAGE_DATA
  | UNKNOWN_F8F2_DATA
deriving DecidableEq

/-- One argument descriptor of an opcode-dictionary row. -/
structure OpArg where
  type : ArgType
  count : Nat := 0
  data_type : DataType := .NONE
deriving DecidableEq

/-- `SCRIPT16`: a `LABEL16` argument whose target is code. -/
def SCRIPT16 : OpArg := { type := .LABEL16, data_type := .SCRIPT }

/-- One row of the opcode dictionary. -/
structure OpcodeDef where
  opcode : Nat
  name : String
  qedit_name : Option String := none
  args : List OpArg
  flags : Nat
deriving DecidableEq

/-- The rows of the source opcode dictionary (~350 rows) that are exercised
by the concrete programs verified in this file, with `opcode`, `args` and
`flags` copied verbatim from the source table. -/
def opcode_defs : List OpcodeDef := [
  { opcode := 0x0000, name := "nop", args := [], flags := F_V0_V4 },
  { opcode := 0x0001, name := "ret", args := [], flags := F_V0_V4 ||| F_RET },
  { opcode := 0x0028, name := "jmp", args := [SCRIPT16], flags := F_V0_V4 },
  { opcode := 0x0048, name := "arg_pushr", args := [{ type := .REG }], flags := F_V3_V4 ||| F_PASS },
  { opcode := 0x0049, name := "arg_pushl", args := [{ type := .INT32 }], flags := F_V3_V4 ||| F_PASS },
  { opcode := 0x004A, name := "arg_pushb", args := [{ type := .INT8 }], flags := F_V3_V4 ||| F_PASS },
  { opcode := 0x004B, name := "arg_pushw", args := [{ type := .INT16 }], flags := F_V3_V4 ||| F_PASS },
  { opcode := 0x004C, name := "arg_pusha", args := [{ type := .REG }], flags := F_V3_V4 ||| F_PASS },
  { opcode := 0x004D, name := "arg_pusho", args := [{ type := .LABEL16 }], flags := F_V3_V4 ||| F_PASS },
  { opcode := 0x004E, name := "arg_pushs", args := [{ type := .CSTRING }], flags := F_V3_V4 ||| F_PASS },
  { opcode := 0x0050, name := "message", args := [{ type := .INT32 }, { type := .CSTRING }], flags := F_V0_V4 ||| F_ARGS },
  { opcode := 0xF8BC, name := "set_episode", args := [{ type := .INT32 }], flags := F_V3_V4 ||| F_SET_EPISODE }
]

/-- `opcodes_for_version`: the per-build opcode index.  The source builds a
hash map over the rows whose flags contain the version bit (validated to
hold no duplicate opcode per build), so lookup returns the unique matching
row. -/
def opcodes_for_version (v : Version) (opcode : Nat) : Option OpcodeDef :=
  (opcode_defs.filter (fun d => d.flags &&& vFlag v ≠ 0)).find? (fun d => d.opcode = opcode)

/-- `opcodes_by_name_for_version`: the per-build mnemonic index (indexes both
`name` and `qedit_name`). -/
def opcodes_by_name_for_version (v : Version) (name : String) : Option OpcodeDef :=
  (opcode_defs.filter (fun d => d.flags &&& vFlag v ≠ 0)).find?
    (fun d => d.name = name ∨ d.qedit_name = some name)

/-! ### Byte-reader primitives

`StringReader` over a byte list: a position plus bounds-checked reads that
do not advance on failure. -/

/-- `get_u8`: read one byte, returning the value and the new position. -/
def ru8 (data : List Nat) (pos : Nat) : Option (Nat × Nat) :=
  match data.get? pos with
  | some b => some (b, pos + 1)
  | none => none

/-- `get_u16l`: read a little-endian 16-bit value. -/
def ru16l (data : List Nat) (pos : Nat) : Option (Nat × Nat) :=
  match data.get? pos, data.get? (pos + 1) with
  | some b0, some b1 => some (b0 + 256 * b1, pos + 2)
  | _, _ => none

/-- `get_u32l`: read a little-endian 32-bit value. -/
def ru32l (data : List Nat) (pos : Nat) : Option (Nat × Nat) :=
  match data.get? pos, data.get? (pos + 1), data.get? (pos + 2), data.get? (pos + 3) with
  | some b0, some b1, some b2, some b3 =>
      some (b0 + 256 * b1 + 65536 * b2 + 16777216 * b3, pos + 4)
  | _, _, _, _ => none

/-- `pget_u32l`: read a little-endian 32-bit value at an absolute offset
without moving the cursor. -/
def pget_u32l (data : List Nat) (off : Nat) : Option Nat :=
  (ru32l data off).map (·.1)

/-- `skip`: advance the cursor, failing past the end. -/
def rskip (data : List Nat) (pos n : Nat) : Option Nat :=
  if pos + n ≤ data.length then some (pos + n) else none

/-! ### Episode detector (`find_quest_episode_from_script`) -/

/-- The `Episode` result values used by the quest toolchain. -/
inductive Episode
  | NONE
  | EP1
  | EP2
  | EP4
deriving DecidableEq

/-- `episode_for_quest_episode_number`: maps a header/operand episode byte
to an `Episode`, failing on unsupported values.  The source takes a
`uint8_t`; callers passing wider integers truncate at the call boundary. -/
def episode_for_quest_episode_number (episode_number : Nat) : Except String Episode :=
  if episode_number = 0x00 ∨ episode_number = 0xFF then .ok .EP1
  else if episode_number = 0x01 then .ok .EP2
  else if episode_number = 0x02 then .ok .EP4
  else .error "invalid episode number"

/-- Insertion into the `found_episodes` set (`unordered_set` semantics:
duplicates are dropped). -/
def insertEpisode (l : List Episode) (e : Episode) : List Episode :=
  if l.contains e then l else l ++ [e]

/-- Skip a narrow C string: `for (uint8_t ch = get_u8(); ch; ch = get_u8())`.
Returns the position after the terminating NUL, or `none` at end of data. -/
def skipCstrNarrow (data : List Nat) : Nat → Nat → Option Nat
  | 0, _ => none
  | fuel + 1, pos =>
    match ru8 data pos with
    | none => none
    | some (b, pos') => if b = 0 then some pos' else skipCstrNarrow data fuel pos'

/-- Skip a wide C string: `for (uint16_t ch = get_u16l(); ch; ch = get_u16l())`. -/
def skipCstrWide (data : List Nat) : Nat → Nat → Option Nat
  | 0, _ => none
  | fuel + 1, pos =>
    match ru16l data pos with
    | none => none
    | some (b, pos') => if b = 0 then some pos' else skipCstrWide data fuel pos'

/-- Argument skipping of the episode-detector walk (one argument).  Returns
the new position and the updated `found_episodes` list; `none` position
means the read threw (the episodes collected so far are preserved, since
the source mutates the set in place before the throw). -/
def episodeWalkArg (use_wstrs : Bool) (flags : Nat) (arg : OpArg) (data : List Nat)
    (pos : Nat) (found : List Episode) : Option Nat × List Episode :=
  match arg.type with
  | .LABEL16 => ((rskip data pos 2), found)
  | .LABEL32 => ((rskip data pos 4), found)
  | .LABEL16_SET =>
    (match ru8 data pos with
     | none => none
     | some (n, pos') => rskip data pos' (n * 2), found)
  | .REG => ((rskip data pos 1), found)
  | .REG_SET =>
    (match ru8 data pos with
     | none => none
     | some (n, pos') => rskip data pos' n, found)
  | .REG_SET_FIXED => ((rskip data pos 1), found)
  | .REG32 => (none, found) -- no case in the source switch: falls to the throwing default
  | .REG32_SET_FIXED => ((rskip data pos 4), found)
  | .INT8 => ((rskip data pos 1), found)
  | .INT16 => ((rskip data pos 2), found)
  | .INT32 =>
    if flags &&& F_SET_EPISODE ≠ 0 then
      match ru32l data pos with
      | none => (none, found)
      | some (v, pos') =>
        match episode_for_quest_episode_number (v % 256) with
        | .ok e => (some pos', insertEpisode found e)
        | .error _ => (none, found)
    else ((rskip data pos 4), found)
  | .FLOAT32 => ((rskip data pos 4), found)
  | .CSTRING =>
    if use_wstrs then (skipCstrWide data (data.length + 1) pos, found)
    else (skipCstrNarrow data (data.length + 1) pos, found)

/-- Skip every argument of a non-`F_ARGS` opcode per the walk rules. -/
def episodeWalkArgsList (use_wstrs : Bool) (flags : Nat) (data : List Nat) :
    List OpArg → Nat → List Episode → Option Nat × List Episode
  | [], pos, found => (some pos, found)
  | arg :: rest, pos, found =>
    match episodeWalkArg use_wstrs flags arg data pos found with
    | (none, found') => (none, found')
    | (some pos', found') => episodeWalkArgsList use_wstrs flags data rest pos' found'

/-- The linear decode loop of `find_quest_episode_from_script`.  Returns
the collected episode set and an error flag (the source catches any throw
from the loop and keeps the partial set).  Fuel bounds the iteration count;
each iteration consumes at least one byte, so `data.length + 1` suffices. -/
def episodeWalkLoop (v : Version) (use_wstrs : Bool) (data : List Nat) :
    Nat → Nat → List Episode → List Episode × Bool
  | 0, _, found => (found, true)
  | fuel + 1, pos, found =>
    if pos ≥ data.length then (found, false)
    else
      match ru8 data pos with
      | none => (found, true)
      | some (b, pos1) =>
        let opcodeRead : Option (Nat × Nat) :=
          if b &&& 0xFE = 0xF8 then
            match ru8 data pos1 with
            | none => none
            | some (b2, pos2) => some ((b <<< 8) ||| b2, pos2)
          else some (b, pos1)
        match opcodeRead with
        | none => (found, true)
        | some (opcode, pos2) =>
          match opcodes_for_version v opcode with
          | none => (found, true)
          | some def_ =>
            if def_.flags &&& F_RET ≠ 0 then (found, false)
            else if def_.flags &&& F_ARGS = 0 then
              match episodeWalkArgsList use_wstrs def_.flags data def_.args pos2 found with
              | (none, found') => (found', true)
              | (some pos3, found') => episodeWalkLoop v use_wstrs data fuel pos3 found'
            else episodeWalkLoop v use_wstrs data fuel pos2 found

/-- The header fields of a quest binary that the episode detector reads.
The packed header layouts live in `CommandFormats.hh` (outside the given
sources); they are modelled abstractly as the record of fields the function
actually uses. -/
structure QuestHeaderFields where
  code_offset : Nat
  function_table_offset : Nat
  episode : Nat
deriving DecidableEq

/-- The episode set collected by the walk, including the enclosing `try`:
a failed read of function-table entry 0, an out-of-range `sub`, or any
throw inside the loop is caught, preserving the episodes found so far. -/
def quest_episode_found (v : Version) (use_wstrs : Bool) (hdr : QuestHeaderFields)
    (data : List Nat) : List Episode :=
  match pget_u32l data hdr.function_table_offset with
  | none => []
  | some ft0 =>
    if hdr.code_offset + ft0 ≤ data.length then
      let cmd := data.drop (hdr.code_offset + ft0)
      (episodeWalkLoop v use_wstrs cmd (cmd.length + 1) 0 []).1
    else []

/-- `find_quest_episode_from_script`: DC and PC builds return `EP1`
immediately; GC and BB builds parse the header, walk function 0 collecting
`set_episode` operands (errors caught), and select the result. -/
def find_quest_episode_from_script (v : Version) (hdr : QuestHeaderFields)
    (data : List Nat) : Except String Episode :=
  match v with
  | .DC_NTE | .DC_V1_11_2000_PROTOTYPE | .DC_V1 | .DC_V2 | .PC_NTE | .PC_V2 => .ok .EP1
  | .PC_PATCH | .BB_PATCH => .error "invalid quest version"
  | _ => do
    let header_episode ← episode_for_quest_episode_number hdr.episode
    let found := quest_episode_found v (v = Version.BB_V4) hdr data
    if found.length > 1 then .error "multiple episodes found"
    else
      match found with
      | [e] => .ok e
      | _ => .ok header_episode

/-! ### Effective-language selection (`disassemble_quest_script`, header switch) -/

/-- The effective language computed while parsing the header, one case per
header-variant branch of the version switch (`none` for the patch
placeholders, which hit `throw logic_error("invalid quest version")`). -/
def effective_language (v : Version) (override_language header_language : Nat) : Option Nat :=
  match v with
  | .DC_NTE => some 0
  | .DC_V1_11_2000_PROTOTYPE | .DC_V1 | .DC_V2 =>
    if override_language ≠ 0xFF then some override_language
    else if header_language < 5 then some header_language
    else some 1
  | .PC_NTE | .PC_V2 =>
    if override_language ≠ 0xFF then some override_language
    else if header_language < 8 then some header_language
    else some 1
  | .GC_NTE | .GC_V3 | .GC_EP3_NTE | .GC_EP3 | .XB_V3 =>
    if override_language ≠ 0xFF then some override_language
    else if header_language < 5 then some header_language
    else some 1
  | .BB_V4 =>
    if override_language ≠ 0xFF then some override_language else some 1
  | .PC_PATCH | .BB_PATCH => none

/-- The language bound per build for stating the claimed rule (the claim
leaves the bound implicit; 5 for the 8-bit-text families and 8 for the
UTF-16 families, matching the ranges the header branches test). -/
def claimed_language_range (v : Version) : Nat :=
  match v with
  | .PC_NTE | .PC_V2 | .BB_V4 => 8
  | _ => 5

/-- The selection rule exactly as the claim words it, for every build:
the override when not 0xFF, else the header language when inside the
supported range, else 1. -/
def claimed_effective_language (v : Version) (ov hl : Nat) : Option Nat :=
  if ov ≠ 0xFF then some ov
  else if hl < claimed_language_range v then some hl
  else some 1

/-- The amended selection rule: `DC_NTE` always decodes with language 0
(both override and header ignored); `BB_V4` takes the override when not
0xFF and otherwise 1 (header ignored); the remaining quest builds follow
the claimed rule; the patch placeholders are rejected. -/
def amended_effective_language (v : Version) (ov hl : Nat) : Option Nat :=
  match v with
  | .PC_PATCH | .BB_PATCH => none
  | .DC_NTE => some 0
  | .BB_V4 => if ov ≠ 0xFF then some ov else some 1
  | _ => claimed_effective_language v ov hl

/-! ### Assembler argument encoding (`assemble_quest_script`) -/

/-- `put_u16l`: little-endian bytes of a 16-bit value. -/
def u16lBytes (v : Nat) : List Nat := [v % 256, v / 256 % 256]

/-- `put_u32l`: little-endian bytes of a 32-bit value. -/
def u32lBytes (v : Nat) : List Nat :=
  [v % 256, v / 256 % 256, v / 65536 % 256, v / 16777216 % 256]

/-- Opcode emission: opcodes with a zero high byte are written as one
byte, all others as two bytes big-endian (`put_u16b`), in both the direct
and the push-args dispatch paths. -/
def emit_opcode (opcode : Nat) : List Nat :=
  if opcode &&& 0xFF00 = 0 then [opcode % 256]
  else [opcode / 256 % 256, opcode % 256]

/-- Byte encoding of an ASCII payload.  The source transcodes through
`tt_utf8_to_8859` / `tt_utf8_to_sega_sjis` / `tt_utf8_to_utf16` (external
helpers); every encoding agrees with the identity on code points below
0x80, and only ASCII payloads occur in the verified programs. -/
def encodeAsciiBytes (s : String) : List Nat := s.data.map Char.toNat

/-- ASCII payload as UTF-16LE bytes. -/
def encodeAsciiUtf16Bytes (s : String) : List Nat :=
  (s.data.map (fun c => [c.toNat, 0])).flatten

/-- `add_cstr`: writes the text in the build encoding (selected by build
family and, for the 8-bit DC/GC builds, the quest language) followed by a
NUL terminator (`put_u8(0)`, or `put_u16(0)` on the UTF-16 builds).  The
`bin` path and non-ASCII payloads are not exercised here. -/
def add_cstr (v : Version) (quest_language : Nat) (text : String) : List Nat :=
  match v with
  | .DC_NTE => encodeAsciiBytes text ++ [0]
  | .DC_V1_11_2000_PROTOTYPE | .DC_V1 | .DC_V2
  | .GC_NTE | .GC_V3 | .GC_EP3_NTE | .GC_EP3 | .XB_V3 =>
    -- quest_language selects ISO-8859 versus Shift-JIS; identical on ASCII
    let _ := quest_language
    encodeAsciiBytes text ++ [0]
  | .PC_NTE | .PC_V2 | .BB_V4 => encodeAsciiUtf16Bytes text ++ [0, 0]
  | .PC_PATCH | .BB_PATCH => [] -- throw logic_error("invalid game version")

/-- Lexicographic strict order on character lists (the `std::string`
comparison `std::map` keys use; byte order and character order agree on
the ASCII names that occur here). -/
def charListLt : List Char → List Char → Bool
  | [], [] => false
  | [], _ :: _ => true
  | _ :: _, [] => false
  | a :: as, b :: bs => if a < b then true else if b < a then false else charListLt as bs

/-- Non-strict string order derived from `charListLt`. -/
def strLe (a b : String) : Bool := !(charListLt b.data a.data)

/-- `starts_with` on strings, by character list (kernel-reducible). -/
def strStartsWith (s p : String) : Bool := p.data.isPrefixOf s.data

/-- `ends_with` on strings, by character list (kernel-reducible). -/
def strEndsWith (s p : String) : Bool := p.data.reverse.isPrefixOf s.data.reverse

/-- Drop `n` leading characters. -/
def strDrop (s : String) (n : Nat) : String := ⟨s.data.drop n⟩

/-- Drop `n` trailing characters. -/
def strDropRight (s : String) (n : Nat) : String := ⟨s.data.take (s.data.length - n)⟩

/-- Split a character list at every occurrence of `c` (the separator is
dropped; `n+1` groups for `n` separators). -/
def splitChar (c : Char) : List Char → List (List Char)
  | [] => [[]]
  | x :: rest =>
    match splitChar c rest with
    | [] => [[x]]
    | g :: gs => if x = c then [] :: g :: gs else (x :: g) :: gs

/-- Association-list lookup (used for `labels_by_name` and
`labels_by_index`). -/
def lookupAssoc {α β : Type _} [DecidableEq α] : List (α × β) → α → Option β
  | [], _ => none
  | p :: rest, k => if p.1 = k then some p.2 else lookupAssoc rest k

/-- Model of `stoll(arg, &end_offset, 0)` with the subsequent
`end_offset == arg.size()` check: a C-style nonnegative integer literal
(hex with `0x` prefix, else decimal), wholly consuming the token.
Negative and octal literals do not occur in the verified programs. -/
def parse_int? (s : String) : Option Nat :=
  let hexDigitVal : Char → Option Nat := fun c =>
    if '0' ≤ c ∧ c ≤ '9' then some (c.toNat - 48)
    else if 'A' ≤ c ∧ c ≤ 'F' then some (c.toNat - 55)
    else if 'a' ≤ c ∧ c ≤ 'f' then some (c.toNat - 87)
    else none
  let decDigitVal : Char → Option Nat := fun c =>
    if '0' ≤ c ∧ c ≤ '9' then some (c.toNat - 48) else none
  let parseWith : (Char → Option Nat) → Nat → List Char → Option Nat := fun digitVal base cs =>
    cs.foldl (fun acc c =>
      match acc, digitVal c with
      | some a, some d => some (a * base + d)
      | _, _ => none) (if cs.isEmpty then none else some 0)
  if strStartsWith s "0x" ∨ strStartsWith s "0X" then
    parseWith hexDigitVal 16 (s.data.drop 2)
  else parseWith decDigitVal 10 s.data

/-- `parse_data_string` restricted to plain quoted ASCII without escape
sequences, the only string shape in the verified programs: strips the
surrounding double quotes. -/
def parse_quoted (s : String) : String :=
  if strStartsWith s "\"" ∧ strEndsWith s "\"" ∧ s.length ≥ 2 then
    strDropRight (strDrop s 1) 1
  else s

/-- Encoding of one argument of one instruction line, covering the token
shapes used by the verified programs.  `use_args` selects the push-args
branch; otherwise `arg_def.type` selects the direct encoder.  Tokens that
denote registers route through the register assigner (modelled separately)
and are reported as out of model scope; the verified programs use none. -/
def asm_encode_arg (v : Version) (quest_language : Nat) (labels : List (String × Nat))
    (use_args : Bool) (arg_def : OpArg) (arg : String) : Except String (List Nat) :=
  let add_label : String → Bool → Except String (List Nat) := fun name is32 =>
    match lookupAssoc labels name with
    | none => .error ("label not defined: " ++ name)
    | some idx => .ok (if is32 then u32lBytes idx else u16lBytes idx)
  if use_args then
    if arg = "" then .error "argument is empty"
    else
      match lookupAssoc labels arg with
      | some idx => .ok (0x4B :: u16lBytes idx) -- arg_pushw with the label index
      | none =>
        if strStartsWith arg "r" ∨ strStartsWith arg "f" ∨ strStartsWith arg "(" ∨ strStartsWith arg "@" then
          .error "register-shaped token: resolved through the register assigner"
        else
          match parse_int? arg with
          | some value =>
            if value > 0xFFFF then .ok (0x49 :: u32lBytes value) -- arg_pushl
            else if value > 0xFF then .ok (0x4B :: u16lBytes value) -- arg_pushw
            else .ok [0x4A, value % 256] -- arg_pushb
          | none =>
            if strStartsWith arg "\"" then
              .ok (0x4E :: add_cstr v quest_language (parse_quoted arg)) -- arg_pushs
            else .error "invalid argument syntax"
  else
    match arg_def.type with
    | .LABEL16 => add_label arg false
    | .LABEL32 => add_label arg true
    | .INT8 =>
      match parse_int? arg with
      | some n => .ok [n % 256]
      | none => .error "invalid integer"
    | .INT16 =>
      match parse_int? arg with
      | some n => .ok (u16lBytes n)
      | none => .error "invalid integer"
    | .INT32 =>
      match parse_int? arg with
      | some n => .ok (u32lBytes n)
      | none => .error "invalid integer"
    | .CSTRING => .ok (add_cstr v quest_language (parse_quoted arg))
    | _ => .error "argument type out of model scope"

/-- `phosg::split(line, ' ', 1)`: the mnemonic and, when present, the rest
of the line after the first space. -/
def splitFirstSpace (s : String) : String × Option String :=
  match s.data.findIdx? (· = ' ') with
  | none => (s, none)
  | some i => (⟨s.data.take i⟩, some ⟨s.data.drop (i + 1)⟩)

/-- Whitespace stripping applied to each parsed token. -/
def stripSpaces (s : String) : String :=
  ⟨(s.data.dropWhile (· = ' ')).reverse.dropWhile (· = ' ') |>.reverse⟩

/-- `phosg::split_context(text, ',')` for argument lists whose string
literals contain no comma (true of the verified programs). -/
def splitArgs (s : String) : List String :=
  (splitChar ',' s.data).map (fun l => stripSpaces ⟨l⟩)

/-- The code bytes `assemble_quest_script` emits for one instruction line
(the line is neither empty, a label definition, nor a directive).  The
push-args dispatch emits each argument and then the opcode; the direct
dispatch emits the opcode and then each argument. -/
def asm_code_line (v : Version) (quest_language : Nat) (labels : List (String × Nat))
    (line : String) : Except String (List Nat) := do
  let (mnemonic, rest?) := splitFirstSpace line
  match opcodes_by_name_for_version v mnemonic with
  | none => .error ("unknown mnemonic: " ++ mnemonic)
  | some d =>
    let use_args : Bool := (F_HAS_ARGS &&& vFlag v != 0) && (d.flags &&& F_ARGS != 0)
    let opcodeBytes := emit_opcode d.opcode
    if d.args.isEmpty then
      match rest? with
      | some _ => .error ("arguments not allowed for " ++ d.name)
      | none => .ok (if use_args then opcodeBytes else opcodeBytes)
    else
      match rest? with
      | none => .error ("arguments required for " ++ d.name)
      | some rest =>
        let rest := stripSpaces rest
        if strStartsWith rest "..." then
          if use_args then .ok opcodeBytes
          else .error "ellipsis can only be used with F_ARGS opcodes"
        else
          let args := splitArgs rest
          if args.length ≠ d.args.length then
            .error ("incorrect argument count for " ++ d.name)
          else do
            -- per-argument failures gain "(arg K)" context (K is 1-based)
            let pieces ← ((args.zip d.args).zip (List.range (args.zip d.args).length)).mapM
              (fun p =>
                match asm_encode_arg v quest_language labels use_args p.1.2 p.1.1 with
                | .ok bytes => Except.ok bytes
                | .error e => Except.error ("(arg " ++ Nat.repr (p.2 + 1) ++ ") " ++ e))
            if use_args then .ok (pieces.flatten ++ opcodeBytes)
            else .ok (opcodeBytes ++ pieces.flatten)

/-! ### Function-table generation (`assemble_quest_script`, tail) -/

/-- The function-table emission loop: `z` counts indexes up to the table
size while consuming `labels_by_index` (ascending keys; offsets are `Int`
because an unplaced label still holds -1, which the loop rejects). -/
def ft_loop : List (Nat × Int) → Nat → Nat → Except String (List Nat)
  | _, _, 0 => .ok []
  | [], _, _ + 1 => .error "function table size exceeds maximum function ID"
  | (i, off) :: rest, z, rem + 1 =>
    if i > z then do
      let t ← ft_loop ((i, off) :: rest) (z + 1) rem
      .ok (0xFFFFFFFF :: t)
    else if i = z then
      if off < 0 then .error "label does not have a valid offset"
      else do
        let t ← ft_loop rest (z + 1) rem
        .ok (off.toNat :: t)
    else .error "missed label when compiling function table"

/-- Function-table generation: `labels_by_index.rbegin()->first + 1`
entries, filling gaps with the sentinel.  The map is never empty because
the `start` label always exists. -/
def build_function_table (labels_by_index : List (Nat × Int)) : Except String (List Nat) :=
  match labels_by_index.getLast? with
  | none => .error "no labels defined"
  | some (maxIdx, _) => ft_loop labels_by_index 0 (maxIdx + 1)

/-- The table described by the claim: one entry per index up to the
highest used index, the label offset where a label exists and the sentinel
0xFFFFFFFF elsewhere. -/
def function_table_spec (labels_by_index : List (Nat × Int)) : List Nat :=
  match labels_by_index.getLast? with
  | none => []
  | some (maxIdx, _) =>
    (List.range (maxIdx + 1)).map (fun i =>
      match lookupAssoc labels_by_index i with
      | some off => off.toNat
      | none => 0xFFFFFFFF)

/-- Serialization of the emitted table: `u32 LE` per entry. -/
def function_table_bytes (table : List Nat) : List Nat :=
  (table.map u32lBytes).flatten

/-! ### Disassembler reachability walk (`disassemble_quest_script`, pass 2)

The walk is embedded for round-trippable (reassembly) mode with the
primary mnemonic set, the configuration the round-trip property uses. -/

/-- Bit position of a `DataType` in a label's `type_flags` bitset. -/
def DataType.toNat : DataType → Nat
  | .NONE => 0
  | .SCRIPT => 1
  | .DATA => 2
  | .CSTRING => 3
  | .PLAYER_STATS => 4
  | .PLAYER_VISUAL_CONFIG => 5
  | .RESIST_DATA => 6
  | .ATTACK_DATA => 7
  | .MOVEMENT_DATA => 8
  | .IMAGE_DATA => 9
  | .UNKNOWN_F8F2_DATA => 10

/-- A disassembly label (`Label` inside `disassemble_quest_script`);
`type_flags` is the bitset `|= 1 << data_type`. -/
structure DLabel where
  name : String
  offset : Nat
  function_id : Nat
  type_flags : Nat
deriving DecidableEq

/-- `Label::add_data_type`. -/
def DLabel.add_data_type (l : DLabel) (t : DataType) : DLabel :=
  { l with type_flags := l.type_flags ||| (1 <<< t.toNat) }

/-- `Label::has_data_type`. -/
def DLabel.has_data_type (l : DLabel) (t : DataType) : Bool :=
  l.type_flags &&& (1 <<< t.toNat) != 0

/-- Uppercase hexadecimal digit. -/
def hexDigitChar (n : Nat) : Char :=
  if n < 10 then Char.ofNat (48 + n) else Char.ofNat (55 + n)

/-- `%02X` over a byte value. -/
def hex2 (n : Nat) : String :=
  ⟨[hexDigitChar (n / 16 % 16), hexDigitChar (n % 16)]⟩

/-- `%04X` over a 16-bit value. -/
def hex4 (n : Nat) : String :=
  ⟨[hexDigitChar (n / 4096 % 16), hexDigitChar (n / 256 % 16),
    hexDigitChar (n / 16 % 16), hexDigitChar (n % 16)]⟩

/-- `%08X` over a 32-bit value. -/
def hex8 (n : Nat) : String := hex4 (n / 65536 % 65536) ++ hex4 (n % 65536)

/-- Parse consecutive `u32l` values; a trailing partial group is dropped
(the out-of-range read is caught and the remaining bytes skipped). -/
def parse_u32l_entries : List Nat → List Nat
  | b0 :: b1 :: b2 :: b3 :: rest =>
    (b0 + 256 * b1 + 65536 * b2 + 16777216 * b3) :: parse_u32l_entries rest
  | _ => []

/-- Function-table scan (pass 1): entry `i` becomes a label named `start`
(index 0, seeded with the `SCRIPT` type flag) or `labelHHHH`. -/
def scan_function_table (entries : List Nat) : List DLabel :=
  (entries.zip (List.range entries.length)).map (fun p =>
    { name := if p.2 = 0 then "start" else "label" ++ hex4 p.2
      offset := p.1
      function_id := p.2
      type_flags := if p.2 = 0 then 1 <<< DataType.SCRIPT.toNat else 0 })

/-- Argument-stack values pushed by `F_PASS` opcodes during the walk. -/
inductive ArgStackValue
  | REG (n : Nat)
  | REG_PTR (n : Nat)
  | LABEL (n : Nat)
  | INT (n : Nat)
  | CSTRING (s : String)
deriving DecidableEq

/-- `std::string::resize(0x20, ' ')` on the mnemonic column. -/
def padResize32 (s : String) : String :=
  if s.length ≥ 32 then ⟨s.data.take 32⟩
  else s ++ ⟨List.replicate (32 - s.length) ' '⟩

/-- `phosg::strip_trailing_whitespace` (only spaces occur here). -/
def stripTrailing (s : String) : String :=
  ⟨s.data.reverse.dropWhile (· = ' ') |>.reverse⟩

/-- `escape_string` on the ASCII printable payloads that occur in the
verified programs: re-quote without escapes. -/
def escape_string_ascii (s : String) : String := "\"" ++ s ++ "\""

/-- State threaded through the decode of one instruction's arguments. -/
structure ArgDecodeState where
  pos : Nat
  pieces : List String
  labels : List DLabel
  argStack : List ArgStackValue
  newOffsets : List Nat
deriving DecidableEq

/-- Read one narrow C string (`get_cstr`): the bytes before the NUL and
the position after it; fails without advancing when no NUL remains. -/
def rcstr (data : List Nat) (pos : Nat) : Option (List Nat × Nat) :=
  match (data.drop pos).findIdx? (· = 0) with
  | some i => some ((data.drop pos).take i, pos + i + 1)
  | none => none

/-- Read one wide C string: `u16l` units before the NUL unit. -/
def rcstrWide (data : List Nat) : Nat → Nat → List Nat → Option (List Nat × Nat)
  | 0, _, _ => none
  | fuel + 1, pos, acc =>
    match ru16l data pos with
    | none => none
    | some (u, pos') => if u = 0 then some (acc.reverse, pos') else rcstrWide data fuel pos' (u :: acc)

/-- ASCII bytes back to a string (the decode direction of the transcoding
helpers, restricted to the ASCII payloads of the verified programs). -/
def decodeAsciiBytes (bs : List Nat) : String := ⟨bs.map Char.ofNat⟩

/-- Decode and render one argument in reassembly mode, updating the
argument stack, the label set and the pending-offset additions. -/
def decodeArg (use_wstrs : Bool) (d : OpcodeDef) (cmd : List Nat) (arg : OpArg)
    (st : ArgDecodeState) : Except (String × Nat) ArgDecodeState :=
  match arg.type with
  | .LABEL16 | .LABEL32 =>
    match (if arg.type = .LABEL32 then ru32l cmd st.pos else ru16l cmd st.pos) with
    | none => .error ("end of string", st.pos)
    | some (label_id, pos') =>
      let stack := if d.flags &&& F_PASS ≠ 0 then st.argStack ++ [.LABEL label_id] else st.argStack
      let text := "label" ++ hex4 label_id
      if label_id ≥ st.labels.length then
        .ok { st with pos := pos', pieces := st.pieces ++ [text], argStack := stack }
      else
        match st.labels.get? label_id with
        | none => .error ("internal", st.pos)
        | some l =>
          let l' := l.add_data_type arg.data_type
          let offs := if arg.data_type = .SCRIPT then st.newOffsets ++ [l.offset] else st.newOffsets
          .ok { pos := pos', pieces := st.pieces ++ [text],
                labels := st.labels.set label_id l', argStack := stack, newOffsets := offs }
  | .LABEL16_SET => .error ("LABEL16_SET argument not exercised by the verified programs", st.pos)
  | .REG =>
    match ru8 cmd st.pos with
    | none => .error ("end of string", st.pos)
    | some (reg, pos') =>
      let stack :=
        if d.flags &&& F_PASS ≠ 0 then
          st.argStack ++ [if d.opcode = 0x004C then .REG_PTR reg else .REG reg]
        else st.argStack
      .ok { st with pos := pos', pieces := st.pieces ++ ["r" ++ Nat.repr reg], argStack := stack }
  | .REG_SET => .error ("REG_SET argument not exercised by the verified programs", st.pos)
  | .REG32 => .error ("invalid argument type", st.pos) -- no case in the source switch: throwing default
  | .REG_SET_FIXED =>
    match ru8 cmd st.pos with
    | none => .error ("end of string", st.pos)
    | some (first, pos') =>
      let text := "r" ++ Nat.repr first ++ "-r" ++ Nat.repr ((first + arg.count - 1) % 256)
      .ok { st with pos := pos', pieces := st.pieces ++ [text] }
  | .REG32_SET_FIXED =>
    match ru32l cmd st.pos with
    | none => .error ("end of string", st.pos)
    | some (first, pos') =>
      let text := "r" ++ Nat.repr first ++ "-r" ++ Nat.repr ((first + arg.count - 1) % 4294967296)
      .ok { st with pos := pos', pieces := st.pieces ++ [text] }
  | .INT8 =>
    match ru8 cmd st.pos with
    | none => .error ("end of string", st.pos)
    | some (v, pos') =>
      let stack := if d.flags &&& F_PASS ≠ 0 then st.argStack ++ [.INT v] else st.argStack
      .ok { st with pos := pos', pieces := st.pieces ++ ["0x" ++ hex2 v], argStack := stack }
  | .INT16 =>
    match ru16l cmd st.pos with
    | none => .error ("end of string", st.pos)
    | some (v, pos') =>
      let stack := if d.flags &&& F_PASS ≠ 0 then st.argStack ++ [.INT v] else st.argStack
      .ok { st with pos := pos', pieces := st.pieces ++ ["0x" ++ hex4 v], argStack := stack }
  | .INT32 =>
    match ru32l cmd st.pos with
    | none => .error ("end of string", st.pos)
    | some (v, pos') =>
      let stack := if d.flags &&& F_PASS ≠ 0 then st.argStack ++ [.INT v] else st.argStack
      .ok { st with pos := pos', pieces := st.pieces ++ ["0x" ++ hex8 v], argStack := stack }
  | .FLOAT32 => .error ("FLOAT32 argument not exercised by the verified programs", st.pos)
  | .CSTRING =>
    if use_wstrs then
      match rcstrWide cmd (cmd.length + 1) st.pos [] with
      | none => .error ("end of string", st.pos)
      | some (units, pos') =>
        let s := decodeAsciiBytes units
        let stack := if d.flags &&& F_PASS ≠ 0 then st.argStack ++ [.CSTRING s] else st.argStack
        .ok { st with pos := pos', pieces := st.pieces ++ [escape_string_ascii s], argStack := stack }
    else
      match rcstr cmd st.pos with
      | none => .error ("end of string", st.pos)
      | some (bytes, pos') =>
        let s := decodeAsciiBytes bytes
        let stack := if d.flags &&& F_PASS ≠ 0 then st.argStack ++ [.CSTRING s] else st.argStack
        .ok { st with pos := pos', pieces := st.pieces ++ [escape_string_ascii s], argStack := stack }

/-- Decode all arguments of one instruction. -/
def decodeArgs (use_wstrs : Bool) (d : OpcodeDef) (cmd : List Nat) :
    List OpArg → ArgDecodeState → Except (String × Nat) ArgDecodeState
  | [], st => .ok st
  | arg :: rest, st => do
    let st' ← decodeArg use_wstrs d cmd arg st
    decodeArgs use_wstrs d cmd rest st'

/-- Result of decoding one instruction. -/
structure DecodeResult where
  line : String
  nextPos : Nat
  labels : List DLabel
  argStack : List ArgStackValue
  newOffsets : List Nat
deriving DecidableEq

/-- Decode one instruction at `pos` in reassembly mode: opcode byte (with
the two-byte 0xF8/0xF9 prefix rule), dictionary lookup, then either the
`.unknown` line, the direct argument decode, or the `...` rendering for
consumed-from-stack (`F_ARGS`) opcodes; `F_PASS`-less opcodes clear the
argument stack.  An error carries the reader position at the throw (the
bounds-checked reads do not advance on failure). -/
def decodeOne (v : Version) (use_wstrs : Bool) (cmd : List Nat) (labels : List DLabel)
    (argStack : List ArgStackValue) (pos : Nat) : Except (String × Nat) DecodeResult :=
  match ru8 cmd pos with
  | none => .error ("end of string", pos)
  | some (b, pos1) =>
    let opcodeRead : Except (String × Nat) (Nat × Nat) :=
      if b &&& 0xFE = 0xF8 then
        match ru8 cmd pos1 with
        | none => .error ("end of string", pos1)
        | some (b2, pos2) => .ok ((b <<< 8) ||| b2, pos2)
      else .ok (b, pos1)
    match opcodeRead with
    | .error e => .error e
    | .ok (opcode, pos2) =>
      match opcodes_for_version v opcode with
      | none =>
        .ok { line := ".unknown " ++ hex4 (opcode % 65536), nextPos := pos2,
              labels := labels, argStack := argStack, newOffsets := [] }
      | some d =>
        let version_has_args := F_HAS_ARGS &&& vFlag v ≠ 0
        let base := padResize32 d.name
        let result : Except (String × Nat) DecodeResult :=
          if ¬version_has_args ∨ d.flags &&& F_ARGS = 0 then
            match decodeArgs use_wstrs d cmd d.args
                { pos := pos2, pieces := [], labels := labels,
                  argStack := argStack, newOffsets := [] } with
            | .error e => .error e
            | .ok st =>
              .ok { line := base ++ String.intercalate ", " st.pieces, nextPos := st.pos,
                    labels := st.labels, argStack := st.argStack, newOffsets := st.newOffsets }
          else
            .ok { line := base ++ "...", nextPos := pos2, labels := labels,
                  argStack := argStack, newOffsets := [] }
        match result with
        | .error e => .error e
        | .ok r =>
          if d.flags &&& F_PASS = 0 then .ok { r with argStack := [] } else .ok r

/-- One straight-line chain of the walk: decode until end of region or an
already-decoded offset; a decode failure is caught, rendered as
`.failed (message)` with `next_offset` at the reader position of the
throw, and the loop continues from that position.  Each recorded line is
the reassembly-mode text `"  " ++ strip_trailing_whitespace(dasm_line)`.
Returns the decoded-line map additions, the updated labels and the
offsets newly enqueued for the worklist. -/
def chainLoop (v : Version) (use_wstrs : Bool) (cmd : List Nat) :
    Nat → Nat → List DLabel → List ArgStackValue → List (Nat × String × Nat) → List Nat →
    List (Nat × String × Nat) × List DLabel × List Nat
  | 0, _, labels, _, dasmLines, newOffs => (dasmLines, labels, newOffs)
  | fuel + 1, pos, labels, argStack, dasmLines, newOffs =>
    if pos ≥ cmd.length then (dasmLines, labels, newOffs)
    else if (dasmLines.find? (fun t => t.1 = pos)).isSome then (dasmLines, labels, newOffs)
    else
      match decodeOne v use_wstrs cmd labels argStack pos with
      | .ok r =>
        chainLoop v use_wstrs cmd fuel r.nextPos r.labels r.argStack
          (dasmLines ++ [(pos, "  " ++ stripTrailing r.line, r.nextPos)]) (newOffs ++ r.newOffsets)
      | .error (msg, errPos) =>
        chainLoop v use_wstrs cmd fuel errPos labels argStack
          (dasmLines ++ [(pos, "  " ++ stripTrailing (".failed (" ++ msg ++ ")"), errPos)]) newOffs

/-- Sorted insertion into the pending-offset `std::set`. -/
def insertSortedNat (x : Nat) : List Nat → List Nat
  | [] => [x]
  | y :: rest =>
    if x < y then x :: y :: rest
    else if x = y then y :: rest
    else y :: insertSortedNat x rest

/-- The worklist loop of pass 2: repeatedly take the smallest pending
offset, decode its chain with a fresh argument stack, and merge the
offsets the chain enqueued. -/
def walkLoop (v : Version) (use_wstrs : Bool) (cmd : List Nat) :
    Nat → List Nat → List DLabel → List (Nat × String × Nat) →
    List (Nat × String × Nat) × List DLabel
  | 0, _, labels, dasmLines => (dasmLines, labels)
  | fuel + 1, pending, labels, dasmLines =>
    match pending with
    | [] => (dasmLines, labels)
    | p :: rest =>
      let (dasmLines', labels', newOffs) :=
        chainLoop v use_wstrs cmd (cmd.length + 1) p labels [] dasmLines []
      walkLoop v use_wstrs cmd fuel (newOffs.foldl (fun l o => insertSortedNat o l) rest)
        labels' dasmLines'

/-- The whole reachability walk: pending offsets seeded from the
function-table labels that fall inside the code region. -/
def dasmWalk (v : Version) (use_wstrs : Bool) (cmd : List Nat) (labels : List DLabel) :
    List (Nat × String × Nat) × List DLabel :=
  let pending := (labels.filter (fun l => l.offset < cmd.length)).foldl
    (fun l lab => insertSortedNat lab.offset l) []
  walkLoop v use_wstrs cmd ((cmd.length + labels.length + 2) * 300) pending labels []

/-- `format_data_string` (hex dump of a byte run; digit case follows the
external formatter and is not load-bearing for any claim). -/
def hexDump (bs : List Nat) : String := String.join (bs.map hex2)

/-- Emit the per-label section lines of the reassembly-mode rendering:
optional blank separator, the `name@0xHHHH:` definition line, the
fallback type note, then either the decoded instruction lines (`SCRIPT`)
or a `.data` dump.  Fails where the source would propagate an exception
(`dasm_lines.at` miss or a non-advancing line). -/
def renderLabelSections (cmd : List Nat) (dasmLines : List (Nat × String × Nat)) :
    List DLabel → Except String (List String)
  | [] => .ok []
  | l :: rest => do
    let size := (match rest.head? with
      | some l2 => l2.offset
      | none => cmd.length) - l.offset
    let sep : List String := if size > 0 then [""] else []
    let defLine := l.name ++ "@0x" ++ hex4 l.function_id ++ ":"
    let (note, l) :=
      if l.type_flags = 0 then
        (["  // Could not determine data type; disassembling as code"],
         l.add_data_type .SCRIPT)
      else ([], l)
    let body ←
      if l.has_data_type .SCRIPT then
        let rec emitCode : Nat → Nat → Except String (List String)
          | _, 0 => .ok []
          | z, fuel + 1 =>
            if z < l.offset + size then
              match dasmLines.find? (fun t => t.1 = z) with
              | none => .error "missing disassembly line"
              | some (_, text, next) =>
                if next ≤ z then .error "line points backward or to itself"
                else do
                  let more ← emitCode next fuel
                  .ok (text :: more)
            else .ok []
        emitCode l.offset (size + 1)
      else
        .ok [".data " ++ hexDump ((cmd.drop l.offset).take size)]
    let more ← renderLabelSections cmd dasmLines rest
    .ok (sep ++ [defLine] ++ note ++ body ++ more)

/-- Ordered insertion placing `x` after every element `y` with
`le y x` (kernel-reducible, stable when folded left over the input). -/
def insertSortedBy {α : Type _} (le : α → α → Bool) (x : α) : List α → List α
  | [] => [x]
  | y :: rest => if le y x then y :: insertSortedBy le x rest else x :: y :: rest

/-- Stable insertion sort. -/
def stableSortBy {α : Type _} (le : α → α → Bool) (l : List α) : List α :=
  l.foldl (fun acc x => insertSortedBy le x acc) []

/-- Stable sort of the label multimap by offset (ties keep function-id
order, matching multimap insertion order). -/
def sortLabelsByOffset (labels : List DLabel) : List DLabel :=
  stableSortBy (fun a b => a.offset ≤ b.offset) labels

/-- Round-trippable disassembly of the code region: function-table scan,
reachability walk, then the per-label rendering.  Header meta-directives
(`.version`, `.name`, ...) are emitted before these lines by the source
and play no part in the label round-trip. -/
def disassemble_code_reassembly (v : Version) (cmd : List Nat) (ft_bytes : List Nat) :
    Except String (List String) :=
  let labels := scan_function_table (parse_u32l_entries ft_bytes)
  let use_wstrs := v = Version.PC_NTE ∨ v = Version.PC_V2 ∨ v = Version.BB_V4
  let (dasmLines, labels') := dasmWalk v use_wstrs cmd labels
  renderLabelSections cmd dasmLines
    (sortLabelsByOffset (labels'.filter (fun l => l.offset < cmd.length)))

/-! ### Assembler front-end label handling (`assemble_quest_script`) -/

/-- Leading and trailing whitespace strip applied to every line. -/
def stripLine (s : String) : String := stripSpaces s

/-- Label collection (second pass): lines ending `:` define labels; an
`@N` suffix pins the function-table index.  Duplicate names or indexes
fail; `start` must have index 0.  Afterwards unpinned labels receive the
lowest unused indexes in ascending name order.  Returns `labels_by_name`
as name-to-index pairs. -/
def collect_labels (lines : List String) : Except String (List (String × Nat)) := do
  let step : List (String × Int) → (String × Nat) → Except String (List (String × Int)) :=
    fun acc p =>
      let line := stripLine p.1
      let line_num := p.2
      if strEndsWith line ":" then do
        let base := strDropRight line 1
        let (name, index) ←
          match base.data.findIdx? (· = '@') with
          | some i =>
            let name : String := ⟨base.data.take i⟩
            match parse_int? ⟨base.data.drop (i + 1)⟩ with
            | none => .error ("(line " ++ Nat.repr line_num ++ ") invalid index in label")
            | some idx =>
              if name = "start" ∧ idx ≠ 0 then
                .error "start label cannot have a nonzero label ID"
              else .ok (name, (idx : Int))
          | none =>
            .ok (base, if base = "start" then (0 : Int) else -1)
        if (acc.find? (fun q => q.1 = name)).isSome then
          .error ("(line " ++ Nat.repr line_num ++ ") duplicate label name: " ++ name)
        else if 0 ≤ index ∧ (acc.find? (fun q => q.2 = index)).isSome then
          .error ("(line " ++ Nat.repr line_num ++ ") duplicate label index")
        else .ok (acc ++ [(name, index)])
      else .ok acc
  let collected ← (lines.zip ((List.range lines.length).map (· + 1))).foldlM step []
  if (collected.find? (fun q => q.1 = "start")).isNone then
    .error "start label is not defined"
  else
    -- auto-assign in ascending name order (std::map iteration)
    let sorted := stableSortBy (fun a b => strLe a.1 b.1) collected
    let assignStep : List (String × Nat) → String × Int → List (String × Nat) :=
      fun acc p =>
        match p.2.toNat' with
        | some idx => acc ++ [(p.1, idx)]
        | none =>
          let rec freeFrom (used : List (String × Nat)) (fuel n : Nat) : Nat :=
            match fuel with
            | 0 => n
            | fuel + 1 =>
              if (used.find? (fun q => q.2 = n)).isSome then freeFrom used fuel (n + 1) else n
          let pinned := collected.filterMap (fun q => q.2.toNat'.map (fun i => (q.1, i)))
          let idx := freeFrom (pinned ++ acc) (pinned.length + acc.length + 1) 0
          acc ++ [(p.1, idx)]
    .ok (sorted.foldl assignStep [])

/-- The third pass over the lines restricted to code emission: empty
lines, label definitions and directives emit nothing here (label offsets
feed the function table, modelled by `build_function_table`); every other
line goes through `asm_code_line` with `(line N)` context. -/
def asm_code_pass (v : Version) (quest_language : Nat) (labels : List (String × Nat)) :
    List (String × Nat) → Except String (List Nat)
  | [] => .ok []
  | (rawLine, line_num) :: rest => do
    let line := stripLine rawLine
    if line = "" then asm_code_pass v quest_language labels rest
    else if strEndsWith line ":" then asm_code_pass v quest_language labels rest
    else if strStartsWith line "." then asm_code_pass v quest_language labels rest
    else
      match asm_code_line v quest_language labels line with
      | .error e => .error ("(line " ++ Nat.repr line_num ++ ") " ++ e)
      | .ok bytes => do
        let more ← asm_code_pass v quest_language labels rest
        .ok (bytes ++ more)

/-- Number the lines 1-based, as the assembler loops do. -/
def numberLines (lines : List String) : List (String × Nat) :=
  lines.zip ((List.range lines.length).map (· + 1))

/-! ### Register assigner (`RegisterAssigner`) -/

/-- One register object (`RegisterAssigner::Register`): `number` is -1
when unassigned; `prev`/`next` adjacency links are register identities
(list indexes standing for the shared_ptr graph).  The emission-offset
set is omitted: it never influences assignment. -/
structure RARegister where
  name : String := ""
  number : Int := -1
  prev : Option Nat := none
  next : Option Nat := none
deriving DecidableEq

/-- Assigner state: the register objects, `named_regs` (a map sorted by
name, as `std::map` iterates) and the 256 `numbered_regs` slots. -/
structure RAState where
  regs : List RARegister
  named_regs : List (String × Nat)
  numbered_regs : List (Option Nat)
deriving DecidableEq

/-- The freshly constructed assigner. -/
def RAState.initial : RAState :=
  { regs := [], named_regs := [], numbered_regs := List.replicate 256 none }

/-- Fetch a register object by identity. -/
def RAState.reg? (s : RAState) (id : Nat) : Option RARegister := s.regs.get? id

/-- Read a numbered slot.  An index past 255 is undefined behaviour in the
source (`std::array::operator[]` unchecked); it is modelled as reading an
unoccupied slot, and claim C9 tracks the raw indexes separately. -/
def RAState.slot (s : RAState) (n : Nat) : Option Nat := s.numbered_regs.getD n none

/-- Sorted insertion into the name map (only ever called with a name not
yet present). -/
def insertNamed (name : String) (id : Nat) : List (String × Nat) → List (String × Nat)
  | [] => [(name, id)]
  | p :: rest => if strLe name p.1 then (name, id) :: p :: rest else p :: insertNamed name id rest

/-- The number half of `get_or_create`: pin `number` onto the register
when it is nonnegative, failing on slot conflicts or contradictory pins. -/
def ra_apply_number (s : RAState) (id : Nat) (number : Int) : Except String RAState :=
  if 0 ≤ number then
    match s.reg? id with
    | none => .error "internal: register id out of range"
    | some r =>
      if r.number < 0 then
        if (s.slot number.toNat).isSome then
          .error "register cannot be assigned due to conflict"
        else
          .ok { s with
            regs := s.regs.set id { r with number := number },
            numbered_regs := s.numbered_regs.set number.toNat (some id) }
      else if r.number ≠ number then .error "register is assigned multiple numbers"
      else .ok s
  else .ok s

/-- The name half of `get_or_create`: attach `name` to the register,
failing when either side already carries a different binding. -/
def ra_apply_name (s : RAState) (id : Nat) (name : String) : Except String RAState :=
  if name ≠ "" then
    match s.reg? id with
    | none => .error "internal: register id out of range"
    | some r =>
      if r.name = "" then
        if (lookupAssoc s.named_regs name).isSome then
          .error "name is already assigned to a different register"
        else
          .ok { s with
            regs := s.regs.set id { r with name := name },
            named_regs := insertNamed name id s.named_regs }
      else if r.name ≠ name then .error "register is assigned multiple names"
      else .ok s
  else .ok s

/-- The lookup-or-create step of `get_or_create`: find the register by
name, else by numbered slot, else construct a fresh one. -/
def ra_find_or_create (s : RAState) (name : String) (number : Int) : RAState × Nat :=
  match (if name ≠ "" then lookupAssoc s.named_regs name else none) with
  | some id => (s, id)
  | none =>
    match (if 0 ≤ number then s.slot number.toNat else none) with
    | some id => (s, id)
    | none => ({ s with regs := s.regs ++ [({} : RARegister)] }, s.regs.length)

/-- `RegisterAssigner::get_or_create`: validate the number, look the
register up by name and then by numbered slot, create it when absent, and
apply the number and name bindings. -/
def ra_get_or_create (s : RAState) (name : String) (number : Int) :
    Except String (RAState × Nat) :=
  if number < -1 ∨ 0x100 ≤ number then .error "invalid register number"
  else
    match ra_find_or_create s name number with
    | (s1, id) =>
      match ra_apply_number s1 id number with
      | .error e => .error e
      | .ok s2 =>
        match ra_apply_name s2 id name with
        | .error e => .error e
        | .ok s3 => .ok (s3, id)

/-- `RegisterAssigner::assign_number` (`number` is a `uint8_t`). -/
def ra_assign_number (s : RAState) (id : Nat) (number : Nat) : Except String RAState :=
  match s.reg? id with
  | none => .error "internal: register id out of range"
  | some r =>
    if r.number < 0 then
      if (s.slot number).isSome then .error "register number assigned multiple times"
      else
        .ok { s with
          regs := s.regs.set id { r with number := (number : Int) },
          numbered_regs := s.numbered_regs.set number (some id) }
    else if r.number ≠ (number : Int) then
      .error "assigning different register number over existing register number"
    else .ok s

/-- First half of `RegisterAssigner::constrain`: record that register `j`
follows register `i`, failing when `i` is already linked elsewhere. -/
def ra_link_after (s : RAState) (i j : Nat) (a : RARegister) : Except String RAState :=
  if a.next = none then .ok { s with regs := s.regs.set i { a with next := some j } }
  else if a.next ≠ some j then
    .error "register must come after, but is already constrained to another register"
  else .ok s

/-- Second half of `RegisterAssigner::constrain`: record that register `i`
precedes register `j`, failing when `j` is already linked elsewhere. -/
def ra_link_before (s : RAState) (i j : Nat) (b : RARegister) : Except String RAState :=
  if b.prev = none then .ok { s with regs := s.regs.set j { b with prev := some i } }
  else if b.prev ≠ some i then
    .error "register must come before, but is already constrained to another register"
  else .ok s

/-- `RegisterAssigner::constrain`: link `second` directly after `first`,
failing on contradictory links, and reject the pair when both ends are
already numbered non-consecutively (`first != (second - 1) & 0xFF`). -/
def ra_constrain (s : RAState) (i j : Nat) : Except String RAState :=
  match s.reg? i with
  | none => .error "internal: register id out of range"
  | some a =>
    match ra_link_after s i j a with
    | .error e => .error e
    | .ok s1 =>
      match s1.reg? j with
      | none => .error "internal: register id out of range"
      | some b =>
        match ra_link_before s1 i j b with
        | .error e => .error e
        | .ok s2 =>
          match s2.reg? i, s2.reg? j with
          | some a2, some b2 =>
            if 0 ≤ a2.number ∧ 0 ≤ b2.number ∧ a2.number ≠ (b2.number - 1) % 256 then
              .error "registers already have non-consecutive numbers"
            else .ok s2
          | _, _ => .error "internal: register id out of range"

/-- Walk along `link` (the `next` or `prev` chain) from the successor of
a register, counting the delta, until a numbered register is found or
the chain ends.  The source loops forever on a cyclic chain of
unnumbered registers; exhausting the fuel (which any terminating walk
never does, as a chain cannot revisit more registers than exist) is
reported as an error. -/
def ra_walk (s : RAState) (link : RARegister → Option Nat) :
    Nat → Option Nat → Nat → Except String (Option (Int × Nat) × Nat)
  | 0, _, _ => .error "unbounded register chain"
  | fuel + 1, cur?, delta =>
    match cur? with
    | none => .ok (none, delta)
    | some cur =>
      match s.reg? cur with
      | none => .error "internal: register id out of range"
      | some r =>
        if 0 ≤ r.number then .ok (some (r.number, delta), delta)
        else ra_walk s link fuel (link r) (delta + 1)

/-- Whether the window of `num_regs` slots starting at `candidate` reads
as all unoccupied (out-of-bounds reads behave as unoccupied, see
`RAState.slot`). -/
def ra_window_free (s : RAState) (candidate num_regs : Nat) : Bool :=
  (List.range num_regs).all (fun z => (s.slot (candidate + z)).isNone)

/-- Search loop of `find_register_number_space` over candidates
`from_c, from_c+1, ...` while `rem` candidates remain. -/
def ra_find_space_loop (s : RAState) (num_regs : Nat) : Nat → Nat → Except String Nat
  | _, 0 => .error "not enough space to assign registers"
  | from_c, rem + 1 =>
    if ra_window_free s from_c num_regs then .ok from_c
    else ra_find_space_loop s num_regs (from_c + 1) rem

/-- `RegisterAssigner::find_register_number_space`. -/
def ra_find_register_number_space (s : RAState) (num_regs : Nat) : Except String Nat :=
  ra_find_space_loop s num_regs 0 0x100

/-- The `numbered_regs[candidate + z]` indexes read by one candidate of
the search: `z` counts up, stopping after an occupied probe or after
`num_regs` free probes. -/
def fr_probe_accesses (s : RAState) (candidate : Nat) : Nat → Nat → List Nat
  | _, 0 => []
  | z, rem + 1 =>
    if (s.slot (candidate + z)).isSome then [candidate + z]
    else (candidate + z) :: fr_probe_accesses s candidate (z + 1) rem

/-- All `numbered_regs` indexes the search reads, in order, for the
candidates it visits. -/
def fr_access_indices_loop (s : RAState) (num_regs : Nat) : Nat → Nat → List Nat
  | _, 0 => []
  | from_c, rem + 1 =>
    let probes := fr_probe_accesses s from_c 0 num_regs
    if ra_window_free s from_c num_regs then probes
    else probes ++ fr_access_indices_loop s num_regs (from_c + 1) rem

/-- Access trace of `find_register_number_space` (claim C9). -/
def fr_access_indices (s : RAState) (num_regs : Nat) : List Nat :=
  fr_access_indices_loop s num_regs 0 0x100

/-- The body of `assign_all`'s main loop for one still-unassigned named
register: derive the number from the nearest numbered register forward,
else backward, else place the whole chain in a free window. -/
def ra_assign_one (s : RAState) (id : Nat) : Except String RAState :=
  match s.reg? id with
  | none => .error "internal: register id out of range"
  | some r =>
    if 0 ≤ r.number then .ok s
    else
      match ra_walk s (·.next) (s.regs.length + 1) r.next 1 with
      | .error e => .error e
      | .ok (some (num, d), _) => ra_assign_number s id ((num - (d : Int)) % 256).toNat
      | .ok (none, next_delta) =>
        match ra_walk s (·.prev) (s.regs.length + 1) r.prev 1 with
        | .error e => .error e
        | .ok (some (num, d), _) => ra_assign_number s id ((num + (d : Int)) % 256).toNat
        | .ok (none, prev_delta) =>
          match ra_find_register_number_space s (prev_delta + next_delta - 1) with
          | .error e => .error e
          | .ok space => ra_assign_number s id ((space + (prev_delta - 1)) % 256)

/-- Final check: every named register received a number. -/
def ra_check_named (s : RAState) : Except String Unit :=
  if s.named_regs.all (fun p =>
      match s.reg? p.2 with
      | some r => decide (0 ≤ r.number)
      | none => false) then .ok ()
  else .error "register was not assigned"

/-- Final check: every occupied slot holds a register carrying that
number. -/
def ra_check_numbered (s : RAState) : Except String Unit :=
  if (List.range 0x100).all (fun z =>
      match s.slot z with
      | some id =>
        match s.reg? id with
        | some r => decide (r.number = (z : Int))
        | none => false
      | none => true) then .ok ()
  else .error "register has incorrect number"

/-- The snapshot `assign_all` takes first: the ids of the named
registers (in name order) that do not yet carry a number. -/
def ra_unassigned (s : RAState) : List Nat :=
  s.named_regs.filterMap (fun p =>
    match s.reg? p.2 with
    | some r => if r.number < 0 then some p.2 else none
    | none => none)

/-- `RegisterAssigner::assign_all` proper: assign each snapshot entry,
then run the postcondition checks. -/
def ra_assign_all (s : RAState) : Except String RAState :=
  match (ra_unassigned s).foldlM ra_assign_one s with
  | .error e => .error e
  | .ok s1 =>
    match ra_check_named s1 with
    | .error e => .error e
    | .ok _ =>
      match ra_check_numbered s1 with
      | .error e => .error e
      | .ok _ => .ok s1

/-- The operations the assembler performs on a `RegisterAssigner` while
parsing: `get_or_create` through `parse_reg` (register identities are
assigned in creation order) and `constrain` on two existing registers
through `parse_reg_set_fixed`. -/
inductive RAOp
  | create (name : String) (number : Int)
  | constrainIds (i j : Nat)
deriving DecidableEq

/-- Run one operation. -/
def runOp (s : RAState) : RAOp → Except String RAState
  | .create name number => (ra_get_or_create s name number).map (·.1)
  | .constrainIds i j => ra_constrain s i j

/-- Run an operation sequence from the fresh assigner; the successful
results are exactly the reachable allocation states. -/
def runOps (ops : List RAOp) : Except String RAState :=
  ops.foldlM runOp RAState.initial

/-- Well-formedness of reachable assigner states: 256 slots; every
occupied slot points at a register carrying that number; every numbered
register is in [0,256) and resides in its slot; named ids are valid. -/
def RAInv (s : RAState) : Prop :=
  s.numbered_regs.length = 256 ∧
  (∀ n id, s.numbered_regs.get? n = some (some id) →
    ∃ r, s.reg? id = some r ∧ r.number = (n : Int)) ∧
  (∀ id r, s.reg? id = some r → 0 ≤ r.number →
    r.number < 256 ∧ s.numbered_regs.get? r.number.toNat = some (some id)) ∧
  (∀ p ∈ s.named_regs, p.2 < s.regs.length)

/-- Numbers (and names) already present are never changed. -/
def RAMono (s s' : RAState) : Prop :=
  ∀ id r, s.reg? id = some r → ∃ r', s'.reg? id = some r' ∧
    (0 ≤ r.number → r'.number = r.number) ∧ (r.name ≠ "" → r'.name = r.name)

/-! ### Concrete inputs used by the claims -/

/-- Header fields for the episode-detector programs: the code region
begins at offset 4, directly after the 4 bytes read as function-table
entry 0 (value 0); the header episode byte is 0 (Episode 1). -/
def c4_hdr : QuestHeaderFields := { code_offset := 4, function_table_offset := 0, episode := 0 }

/-- A quest whose function 0 is `set_episode <ep>` then `ret` plus one
pad byte: on the wire F8 BC followed by the episode number as `u32l`. -/
def c4_quest (ep : Nat) : List Nat := [0, 0, 0, 0] ++ [0xF8, 0xBC, ep, 0, 0, 0, 0x01, 0x00]

/-- Function 0 is `set_episode 1` followed by a truncated second
`set_episode` whose INT32 operand runs off the end of the buffer. -/
def c6_err_data : List Nat := [0, 0, 0, 0] ++ [0xF8, 0xBC, 0x01, 0, 0, 0, 0xF8, 0xBC, 0x03]

/-- Code region of the C1 quest: `jmp` to function-table index 0 (the
`start` label) then `ret`. -/
def c1_code : List Nat := [0x28, 0x00, 0x00, 0x01]

/-- Function table of the C1 quest: the single entry 0. -/
def c1_ft_bytes : List Nat := [0, 0, 0, 0]

/-- The round-trippable disassembly text of the C1 quest's code region. -/
def c1_lines : List String :=
  ["", "start@0x0000:", "  jmp                             label0000", "  ret"]

/-- Code region of the C5 quest: a `jmp` whose 16-bit label id is
truncated (only one byte remains), that byte being 0x00 (`nop`). -/
def c5_cmd : List Nat := [0x28, 0x00]

/-- Function-table labels of the C5 quest (single function at offset 0). -/
def c5_labels : List DLabel := scan_function_table [0]

/-- The C2 program bytes: `message 0x12, "hello"` then `ret`, assembled
for a V3 build (GC_V3, default quest language 1, a `start` label at
index 0). -/
def c2_program_bytes : Except String (List Nat) := do
  let a ← asm_code_line .GC_V3 1 [("start", 0)] "message 0x12, \"hello\""
  let b ← asm_code_line .GC_V3 1 [("start", 0)] "ret"
  .ok (a ++ b)

/-- Operation sequence with pins applied after `constrain`: `a` and `b`
are created unnumbered, constrained adjacent, then pinned to 10 and 20
(as by later occurrences `r:a@10` and `r:b@20` in the source text). -/
def c8ops : List RAOp :=
  [.create "a" (-1), .create "b" (-1), .constrainIds 0 1, .create "a" 10, .create "b" 20]

/-- The reachable state after `c8ops`. -/
def c8_state : RAState := (runOps c8ops).toOption.getD RAState.initial

/-- The state after `assign_all` on `c8_state`. -/
def c8_final : RAState := (ra_assign_all c8_state).toOption.getD RAState.initial

/-- Witness state: one register named `x` pinned to 5. -/
def c8w_state : RAState :=
  { regs := [{ name := "x", number := 5 }],
    named_regs := [("x", 0)],
    numbered_regs := (List.replicate 256 none).set 5 (some 0) }

/-- Operations reaching an allocator state with slots 0 through 254
occupied by anonymous pinned registers plus one constrained pair of
still-unassigned named registers. -/
def c9ops : List RAOp :=
  ((List.range 255).map (fun i => RAOp.create "" (i : Int))) ++
  [.create "a" (-1), .create "b" (-1), .constrainIds 255 256]

/-- The reachable state after `c9ops`. -/
def c9_state : RAState := (runOps c9ops).toOption.getD RAState.initial

/-! ## Claim theorems -/

/-- C10: for every input buffer and header, `find_quest_episode_from_script`
on each DC and PC build returns Episode 1 unconditionally and never
fails; the result does not depend on the header fields or on any byte of
the buffer. -/
theorem c10_dc_pc_returns_ep1 :
    ∀ (hdr : QuestHeaderFields) (data : List Nat),
      find_quest_episode_from_script .DC_NTE hdr data = .ok .EP1 ∧
      find_quest_episode_from_script .DC_V1_11_2000_PROTOTYPE hdr data = .ok .EP1 ∧
      find_quest_episode_from_script .DC_V1 hdr data = .ok .EP1 ∧
      find_quest_episode_from_script .DC_V2 hdr data = .ok .EP1 ∧
      find_quest_episode_from_script .PC_NTE hdr data = .ok .EP1 ∧
      find_quest_episode_from_script .PC_V2 hdr data = .ok .EP1 :=
  fun _ _ => ⟨rfl, rfl, rfl, rfl, rfl, rfl⟩

/-- C4 (counterexample): with the `set_episode` literal 3, the claim
predicts a failure, but the invalid-number error is thrown inside the
caught walk, so the function returns the header's episode (Episode 1)
instead of failing. -/
theorem c4_counterexample :
    find_quest_episode_from_script .GC_V3 c4_hdr (c4_quest 3) = .ok .EP1 := by decide

/-- C4 (amended): for a V3/V4 quest whose function 0 contains a single
`set_episode`, the INT32 literal 0 maps to Episode 1, 1 to Episode 2 and
2 to Episode 4; for the unsupported literal 3 the mapping error is caught
and the header's episode is returned instead of a failure. -/
theorem c4_set_episode_literal_mapping :
    find_quest_episode_from_script .GC_V3 c4_hdr (c4_quest 0) = .ok .EP1 ∧
    find_quest_episode_from_script .GC_V3 c4_hdr (c4_quest 1) = .ok .EP2 ∧
    find_quest_episode_from_script .GC_V3 c4_hdr (c4_quest 2) = .ok .EP4 ∧
    find_quest_episode_from_script .BB_V4 c4_hdr (c4_quest 1) = .ok .EP2 ∧
    find_quest_episode_from_script .GC_V3 c4_hdr (c4_quest 3) = .ok .EP1 := by decide

/-- C6 (counterexample): a decode error during the walk does not force
the header's episode: with `set_episode 1` collected before the error
and a header episode of 0 (Episode 1), the function returns Episode 2. -/
theorem c6_counterexample :
    find_quest_episode_from_script .GC_V3 c4_hdr c6_err_data = .ok .EP2 ∧
    episode_for_quest_episode_number c4_hdr.episode = .ok .EP1 ∧
    Episode.EP2 ≠ Episode.EP1 := by decide

/-- C6 (amended): for the GC and BB builds (header episode parsing
aside), the result is selected from the episodes collected by the walk up
to its end or first caught error: more than one distinct episode fails,
exactly one is returned, and none yields the header's episode. -/
theorem c6_result_selection (v : Version) (hdr : QuestHeaderFields) (data : List Nat)
    (he : Episode)
    (hv : v = .GC_NTE ∨ v = .GC_V3 ∨ v = .GC_EP3_NTE ∨ v = .GC_EP3 ∨ v = .XB_V3 ∨ v = .BB_V4)
    (hhe : episode_for_quest_episode_number hdr.episode = .ok he) :
    find_quest_episode_from_script v hdr data =
      (let found := quest_episode_found v (v = Version.BB_V4) hdr data
       if found.length > 1 then .error "multiple episodes found"
       else match found with
         | [e] => .ok e
         | _ => .ok he) := by
  rcases hv with rfl | rfl | rfl | rfl | rfl | rfl <;>
    simp only [find_quest_episode_from_script, bind, Except.bind, hhe]

/-- C6 (witness): the selection theorem at the concrete truncated
program, where one episode was collected before the caught error. -/
theorem c6_result_selection_witness :
    find_quest_episode_from_script .GC_V3 c4_hdr c6_err_data =
      (let found := quest_episode_found .GC_V3 (Version.GC_V3 = Version.BB_V4) c4_hdr c6_err_data
       if found.length > 1 then .error "multiple episodes found"
       else match found with
         | [e] => .ok e
         | _ => .ok .EP1) :=
  c6_result_selection .GC_V3 c4_hdr c6_err_data .EP1 (Or.inr (Or.inl rfl)) (by decide)

/-- C3 (counterexample): the claimed rule fails on DC_NTE (the override 2
is ignored and language 0 is used) and on BB_V4 (with no override the
header language 3 is ignored and language 1 is used). -/
theorem c3_counterexample :
    effective_language .DC_NTE 2 0 = some 0 ∧
    claimed_effective_language .DC_NTE 2 0 = some 2 ∧
    effective_language .BB_V4 0xFF 3 = some 1 ∧
    claimed_effective_language .BB_V4 0xFF 3 = some 3 ∧
    (some 0 : Option Nat) ≠ some 2 ∧
    (some 1 : Option Nat) ≠ some 3 := by decide

/-- C3 (amended): the effective language equals the claimed rule
(override if not 0xFF, else in-range header language, else 1) for the
DC prototype/V1/V2, PC and GC families, while DC_NTE always uses
language 0 and BB_V4 never consults the header language. -/
theorem c3_effective_language_amended :
    ∀ (v : Version) (ov hl : Nat),
      effective_language v ov hl = amended_effective_language v ov hl := by
  intro v ov hl
  cases v <;> rfl

/-- C2 (counterexample): the `message` opcode (0x0050) is emitted as the
single byte 0x50, not in two-byte big-endian form, because its high byte
is zero. -/
theorem c2_counterexample :
    emit_opcode 0x0050 = [0x50] ∧ emit_opcode 0x0050 ≠ [0x00, 0x50] ∧
    c2_program_bytes =
      .ok [0x4A, 0x12, 0x4E, 0x68, 0x65, 0x6C, 0x6C, 0x6F, 0x00, 0x50, 0x01] := by decide

/-- C2 (amended): assembling the V3 program `message 0x12, "hello"` then
`ret` yields, in order, `arg_pushb` (0x4A) with operand 0x12, `arg_pushs`
(0x4E) with the NUL-terminated encoding of "hello", then the `message`
opcode emitted as the single byte 0x50 (high byte zero means the one-byte
form), then `ret` (0x01). -/
theorem c2_push_args_dispatch :
    c2_program_bytes =
      .ok ([0x4A, 0x12] ++ ([0x4E] ++ encodeAsciiBytes "hello" ++ [0]) ++
        emit_opcode 0x0050 ++ emit_opcode 0x0001) := by decide

/-- C1 (code bug): disassembling, in round-trippable mode, a quest whose
code references function-table index 0 renders the reference as
`label0000` while the label-definition line names the same index `start`,
so reassembling the produced text fails with an undefined-label error
instead of reproducing the binary. -/
theorem c1_roundtrip_start_label_bug :
    disassemble_code_reassembly .DC_V1 c1_code c1_ft_bytes = .ok c1_lines ∧
    collect_labels c1_lines = .ok [("start", 0)] ∧
    asm_code_pass .DC_V1 1 [("start", 0)] (numberLines c1_lines) =
      .error "(line 3) (arg 1) label not defined: label0000" := by decide

/-- C5 (amended): when decoding an instruction raises an error, the
disassembler records a `.failed (message)` line for that offset whose
next-offset is the reader position of the throw, and the straight-line
chain then continues decoding from that same position (stopping only at
the end of the region or an already-decoded offset); the walk itself is
never aborted. -/
theorem c5_failed_line_continues (v : Version) (uw : Bool) (cmd : List Nat) (fuel pos : Nat)
    (labels : List DLabel) (argStack : List ArgStackValue)
    (dasmLines : List (Nat × String × Nat)) (newOffs : List Nat) (msg : String) (errPos : Nat)
    (hpos : pos < cmd.length)
    (hnew : (dasmLines.find? (fun t => t.1 = pos)).isSome = false)
    (hdec : decodeOne v uw cmd labels argStack pos = .error (msg, errPos)) :
    chainLoop v uw cmd (fuel + 1) pos labels argStack dasmLines newOffs =
      chainLoop v uw cmd fuel errPos labels argStack
        (dasmLines ++ [(pos, "  " ++ stripTrailing (".failed (" ++ msg ++ ")"), errPos)])
        newOffs := by
  have h1 : ¬ pos ≥ cmd.length := by omega
  simp only [chainLoop, h1, if_false, hnew, hdec, Bool.false_eq_true]

/-- C5 (witness): the chain step at the concrete truncated `jmp`, and the
resulting walk, which goes on to decode the `nop` at the next offset in
the same chain. -/
theorem c5_failed_line_continues_witness :
    chainLoop .DC_V1 false c5_cmd 3 0 c5_labels [] [] [] =
      chainLoop .DC_V1 false c5_cmd 2 1 c5_labels [] [(0, "  .failed (end of string)", 1)] [] ∧
    (dasmWalk .DC_V1 false c5_cmd c5_labels).1 =
      [(0, "  .failed (end of string)", 1), (1, "  nop", 2)] := by
  constructor
  · exact c5_failed_line_continues .DC_V1 false c5_cmd 2 0 c5_labels [] [] []
      "end of string" 1 (by decide) (by decide) (by decide)
  · decide

set_option maxRecDepth 8000 in
/-- C5 (counterexample): the original claim says no further instruction
of the chain is decoded after a failure, but with code `28 00` (a `jmp`
whose label id is truncated) the only worklist offset is 0, the decode at
0 fails, and the same chain then decodes the remaining byte at offset 1
as a `nop` line. -/
theorem c5_counterexample :
    (dasmWalk .DC_V1 false c5_cmd c5_labels).1 =
      [(0, "  .failed (end of string)", 1), (1, "  nop", 2)] ∧
    c5_labels.map DLabel.offset = [0] ∧
    strStartsWith "  nop" "  .failed" = false := by decide

set_option maxRecDepth 8000 in
set_option maxHeartbeats 4000000 in
/-- C9: `find_register_number_space` reads `numbered_regs[256]`, one past
the end of the 256-slot array, in the reachable state where slots 0
through 254 are occupied and a two-register window is requested (the
constrained pair `a`,`b` makes `assign_all` request exactly
`num_regs = 2`: the forward walk ends unnumbered with delta 2 and the
backward walk with delta 1). -/
theorem c9_find_space_reads_past_array :
    (runOps c9ops).toOption.isSome = true ∧
    c9_state.numbered_regs.length = 256 ∧
    c9_state.reg? 255 = some { name := "a", number := -1, prev := none, next := some 256 } ∧
    ra_walk c9_state (·.next) (c9_state.regs.length + 1) (some 256) 1 = .ok (none, 2) ∧
    ra_walk c9_state (·.prev) (c9_state.regs.length + 1) none 1 = .ok (none, 1) ∧
    256 ∈ fr_access_indices c9_state 2 := by decide

set_option maxRecDepth 8000 in
/-- C8 (counterexample): `constrain` links `a` before `b` while both are
unnumbered; pinning `a` to 10 and `b` to 20 afterwards raises no error,
and `assign_all` then completes successfully even though the constrained
pair ends with 20 instead of (10 + 1) mod 256. -/
theorem c8_counterexample :
    (runOps c8ops).toOption.isSome = true ∧
    (ra_assign_all c8_state).toOption.isSome = true ∧
    c8_final.reg? 0 = some { name := "a", number := 10, prev := none, next := some 1 } ∧
    c8_final.reg? 1 = some { name := "b", number := 20, prev := some 0, next := none } ∧
    ((20 : Int) % 256) ≠ ((10 + 1) % 256) := by decide

theorem RAMono.refl (s : RAState) : RAMono s s :=
  fun _ r h => ⟨r, h, fun _ => rfl, fun _ => rfl⟩

theorem RAMono.trans {s t u : RAState} (h1 : RAMono s t) (h2 : RAMono t u) : RAMono s u := by
  intro id r h
  obtain ⟨r1, hr1, hn1, hm1⟩ := h1 id r h
  obtain ⟨r2, hr2, hn2, hm2⟩ := h2 id r1 hr1
  refine ⟨r2, hr2, ?_, ?_⟩
  · intro hge
    rw [hn2 (by rw [hn1 hge]; exact hge), hn1 hge]
  · intro hne
    rw [hm2 (by rw [hm1 hne]; exact hne), hm1 hne]

theorem rainv_initial : RAInv RAState.initial := by
  refine ⟨?_, ?_, ?_, ?_⟩
  · show (List.replicate 256 (none : Option Nat)).length = 256
    exact List.length_replicate 256 none
  · intro n id h
    rw [RAState.initial] at h
    simp only [List.get?_eq_getElem?] at h
    rcases Nat.lt_or_ge n 256 with hlt | hge
    · rw [List.getElem?_replicate, if_pos hlt] at h
      cases h
    · rw [List.getElem?_replicate, if_neg (by omega)] at h
      cases h
  · intro id r h
    rw [RAState.initial, RAState.reg?] at h
    simp at h
  · intro p hp
    rw [RAState.initial] at hp
    simp at hp

theorem ra_apply_number_pres {s : RAState} {id : Nat} {number : Int} {s' : RAState}
    (hinv : RAInv s) (hlt : number < 256)
    (h : ra_apply_number s id number = .ok s') :
    RAInv s' ∧ RAMono s s' ∧ s'.named_regs = s.named_regs ∧ s'.regs.length = s.regs.length := by
  obtain ⟨hlen, hslot, hnum, hnamed⟩ := hinv
  rw [ra_apply_number] at h
  split at h
  next hge =>
    split at h
    next heq => cases h
    next r hreg =>
      split at h
      next hrneg =>
        split at h
        next hocc => cases h
        next hocc =>
          injection h with h
          subst h
          have hidlt : id < s.regs.length := by
            by_contra hcc
            rw [RAState.reg?, List.get?_eq_getElem?, List.getElem?_eq_none (by omega)] at hreg
            cases hreg
          have hntlt : number.toNat < 256 := by omega
          refine ⟨⟨by simp [hlen], ?_, ?_, ?_⟩, ?_, rfl, by simp⟩
          · -- slots
            intro n id' hn
            simp only [List.get?_eq_getElem?] at hn
            by_cases hnn : n = number.toNat
            · subst hnn
              rw [List.getElem?_set_self (by omega)] at hn
              injection hn with hn
              injection hn with hn
              subst hn
              refine ⟨{ r with number := number }, ?_, ?_⟩
              · rw [RAState.reg?]
                simp only [List.get?_eq_getElem?]
                rw [List.getElem?_set_self hidlt]
              · simp
                omega
            · rw [List.getElem?_set_ne (by omega)] at hn
              obtain ⟨r', hr', hnum'⟩ := hslot n id' (by rwa [List.get?_eq_getElem?])
              have hid' : id' ≠ id := by
                intro hcontra
                subst hcontra
                rw [hreg] at hr'
                injection hr' with hr'
                subst hr'
                omega
              refine ⟨r', ?_, hnum'⟩
              rw [RAState.reg?]
              simp only [List.get?_eq_getElem?]
              rw [List.getElem?_set_ne (fun hcc => hid' hcc.symm)]
              rw [RAState.reg?] at hr'
              simpa [List.get?_eq_getElem?] using hr'
          · -- numbered registers sit in their slot
            intro id' r' hr' hge'
            rw [RAState.reg?] at hr'
            simp only [List.get?_eq_getElem?] at hr'
            by_cases hid' : id' = id
            · subst hid'
              rw [List.getElem?_set_self hidlt] at hr'
              injection hr' with hr'
              subst hr'
              refine ⟨hlt, ?_⟩
              simp only [List.get?_eq_getElem?]
              rw [List.getElem?_set_self (by omega)]
            · rw [List.getElem?_set_ne (fun hcc => hid' hcc.symm)] at hr'
              obtain ⟨hlt', hsl'⟩ := hnum id' r' (by rwa [RAState.reg?, List.get?_eq_getElem?]) hge'
              refine ⟨hlt', ?_⟩
              have hslne : r'.number.toNat ≠ number.toNat := by
                intro hcc
                have hthis := hsl'
                rw [hcc] at hthis
                rw [RAState.slot] at hocc
                have hgd : s.numbered_regs.getD number.toNat none = some id' := by
                  rw [List.getD_eq_getElem?_getD, ← List.get?_eq_getElem?, hthis]
                  rfl
                rw [hgd] at hocc
                simp at hocc
              simp only [List.get?_eq_getElem?]
              rw [List.getElem?_set_ne (fun hcc => hslne hcc.symm)]
              simpa [List.get?_eq_getElem?] using hsl'
          · -- named ids still valid
            intro p hp
            simpa using hnamed p hp
          · -- mono
            intro id' r' hr'
            by_cases hid' : id' = id
            · subst hid'
              rw [hreg] at hr'
              injection hr' with hr'
              subst hr'
              refine ⟨{ r with number := number }, ?_, ?_, ?_⟩
              · rw [RAState.reg?]
                simp only [List.get?_eq_getElem?]
                rw [List.getElem?_set_self hidlt]
              · intro hge'; omega
              · intro _; rfl
            · refine ⟨r', ?_, fun _ => rfl, fun _ => rfl⟩
              rw [RAState.reg?]
              simp only [List.get?_eq_getElem?]
              rw [List.getElem?_set_ne (fun hcc => hid' hcc.symm)]
              rw [RAState.reg?] at hr'
              simpa [List.get?_eq_getElem?] using hr'
      next hrneg =>
        split at h
        next hne => cases h
        next hne =>
          injection h with h
          subst h
          exact ⟨⟨hlen, hslot, hnum, hnamed⟩, RAMono.refl s, rfl, rfl⟩
  next hge =>
    injection h with h
    subst h
    exact ⟨⟨hlen, hslot, hnum, hnamed⟩, RAMono.refl s, rfl, rfl⟩

/-- Membership through sorted insertion into the name map. -/
theorem mem_insertNamed {name : String} {id : Nat} {p : String × Nat} :
    ∀ {l : List (String × Nat)}, p ∈ insertNamed name id l → p = (name, id) ∨ p ∈ l
  | [], h => by
    rw [insertNamed] at h
    rcases List.mem_cons.mp h with heq | habs
    · exact Or.inl heq
    · cases habs
  | q :: rest, h => by
    rw [insertNamed] at h
    by_cases hle : strLe name q.1
    · rw [if_pos hle] at h
      rcases List.mem_cons.mp h with heq | htail
      · exact Or.inl heq
      · exact Or.inr htail
    · rw [if_neg hle] at h
      rcases List.mem_cons.mp h with heq | htail
      · exact Or.inr (heq ▸ List.mem_cons_self _ _)
      · rcases mem_insertNamed htail with heq' | hmem
        · exact Or.inl heq'
        · exact Or.inr (List.mem_cons_of_mem _ hmem)

theorem ra_apply_name_pres {s : RAState} {id : Nat} {name : String} {s' : RAState}
    (hinv : RAInv s) (h : ra_apply_name s id name = .ok s') :
    RAInv s' ∧ RAMono s s' ∧ s'.regs.length = s.regs.length := by
  obtain ⟨hlen, hslot, hnum, hnamed⟩ := hinv
  rw [ra_apply_name] at h
  split at h
  next hne =>
    split at h
    next heq => cases h
    next r hreg =>
      split at h
      next hempty =>
        split at h
        next htaken => cases h
        next htaken =>
          injection h with h
          subst h
          have hidlt : id < s.regs.length := by
            by_contra hcc
            rw [RAState.reg?, List.get?_eq_getElem?, List.getElem?_eq_none (by omega)] at hreg
            cases hreg
          refine ⟨⟨hlen, ?_, ?_, ?_⟩, ?_, by simp⟩
          · intro n id' hn
            obtain ⟨r', hr', hnum'⟩ := hslot n id' hn
            by_cases hid' : id' = id
            · subst hid'
              rw [hreg] at hr'
              injection hr' with hr'
              subst hr'
              refine ⟨{ r with name := name }, ?_, hnum'⟩
              rw [RAState.reg?]
              simp only [List.get?_eq_getElem?]
              rw [List.getElem?_set_self hidlt]
            · refine ⟨r', ?_, hnum'⟩
              rw [RAState.reg?]
              simp only [List.get?_eq_getElem?]
              rw [List.getElem?_set_ne (fun hcc => hid' hcc.symm)]
              rw [RAState.reg?] at hr'
              simpa [List.get?_eq_getElem?] using hr'
          · intro id' r' hr' hge'
            rw [RAState.reg?] at hr'
            simp only [List.get?_eq_getElem?] at hr'
            by_cases hid' : id' = id
            · subst hid'
              rw [List.getElem?_set_self hidlt] at hr'
              injection hr' with hr'
              subst hr'
              exact hnum _ r hreg (by simpa using hge')
            · rw [List.getElem?_set_ne (fun hcc => hid' hcc.symm)] at hr'
              exact hnum id' r' (by rwa [RAState.reg?, List.get?_eq_getElem?]) hge'
          · intro p hp
            simp only [] at hp
            rcases mem_insertNamed hp with heq | hmem
            · subst heq
              simpa using hidlt
            · simpa using hnamed p hmem
          · intro id' r' hr'
            by_cases hid' : id' = id
            · subst hid'
              rw [hreg] at hr'
              injection hr' with hr'
              subst hr'
              refine ⟨{ r with name := name }, ?_, fun _ => rfl, ?_⟩
              · rw [RAState.reg?]
                simp only [List.get?_eq_getElem?]
                rw [List.getElem?_set_self hidlt]
              · intro hname
                exact absurd hempty hname
            · refine ⟨r', ?_, fun _ => rfl, fun _ => rfl⟩
              rw [RAState.reg?]
              simp only [List.get?_eq_getElem?]
              rw [List.getElem?_set_ne (fun hcc => hid' hcc.symm)]
              rw [RAState.reg?] at hr'
              simpa [List.get?_eq_getElem?] using hr'
      next hempty =>
        split at h
        next hdiff => cases h
        next hdiff =>
          injection h with h
          subst h
          exact ⟨⟨hlen, hslot, hnum, hnamed⟩, RAMono.refl s, rfl⟩
  next hne =>
    injection h with h
    subst h
    exact ⟨⟨hlen, hslot, hnum, hnamed⟩, RAMono.refl s, rfl⟩

/-- A fresh register appended to the object list preserves the invariant. -/
theorem rainv_append {s : RAState} (hinv : RAInv s) :
    RAInv { s with regs := s.regs ++ [({} : RARegister)] } ∧
    RAMono s { s with regs := s.regs ++ [({} : RARegister)] } := by
  obtain ⟨hlen, hslot, hnum, hnamed⟩ := hinv
  have hregs : ∀ id r, s.reg? id = some r →
      ({ s with regs := s.regs ++ [({} : RARegister)] } : RAState).reg? id = some r := by
    intro id r hr
    have hidlt : id < s.regs.length := by
      by_contra hcc
      rw [RAState.reg?, List.get?_eq_getElem?, List.getElem?_eq_none (by omega)] at hr
      cases hr
    rw [RAState.reg?] at hr ⊢
    simp only [List.get?_eq_getElem?] at hr ⊢
    rw [List.getElem?_append_left hidlt]
    exact hr
  refine ⟨⟨hlen, ?_, ?_, ?_⟩, ?_⟩
  · intro n id hn
    obtain ⟨r, hr, hnr⟩ := hslot n id hn
    exact ⟨r, hregs id r hr, hnr⟩
  · intro id r hr hge
    rw [RAState.reg?] at hr
    simp only [List.get?_eq_getElem?] at hr
    rcases Nat.lt_trichotomy id s.regs.length with hlt | heq | hgt
    · rw [List.getElem?_append_left hlt] at hr
      exact hnum id r (by rwa [RAState.reg?, List.get?_eq_getElem?]) hge
    · subst heq
      rw [List.getElem?_concat_length] at hr
      injection hr with hr
      subst hr
      exact absurd hge (by decide)
    · rw [List.getElem?_eq_none (by simp; omega)] at hr
      cases hr
  · intro p hp
    have := hnamed p hp
    simp only [List.length_append, List.length_cons, List.length_nil]
    omega
  · intro id r hr
    exact ⟨r, hregs id r hr, fun _ => rfl, fun _ => rfl⟩

/-- The lookup-or-create step preserves the invariant. -/
theorem ra_find_or_create_pres {s : RAState} {name : String} {number : Int}
    (hinv : RAInv s) :
    RAInv (ra_find_or_create s name number).1 ∧
    RAMono s (ra_find_or_create s name number).1 := by
  rw [ra_find_or_create]
  cases (if name ≠ "" then lookupAssoc s.named_regs name else none) with
  | some id => exact ⟨hinv, RAMono.refl s⟩
  | none =>
    cases (if 0 ≤ number then s.slot number.toNat else none) with
    | some id => exact ⟨hinv, RAMono.refl s⟩
    | none => exact rainv_append hinv

/-- `get_or_create` preserves the invariant and changes no number. -/
theorem ra_get_or_create_pres {s : RAState} {name : String} {number : Int}
    {s' : RAState} {id : Nat}
    (hinv : RAInv s) (h : ra_get_or_create s name number = .ok (s', id)) :
    RAInv s' ∧ RAMono s s' := by
  rw [ra_get_or_create] at h
  split at h
  next => cases h
  next hval =>
    have hlt : number < 256 := by
      push_neg at hval
      omega
    split at h
    next s1 id1 hfind =>
      split at h
      next => cases h
      next s2 happly =>
        split at h
        next => cases h
        next s3 hname =>
          injection h with h
          have hs3 : s3 = s' := congrArg Prod.fst h
          subst hs3
          have hfc := @ra_find_or_create_pres s name number hinv
          rw [hfind] at hfc
          obtain ⟨hinv1, hmono1⟩ := hfc
          obtain ⟨hinv2, hmono2, _, _⟩ := ra_apply_number_pres hinv1 hlt happly
          obtain ⟨hinv3, hmono3, _⟩ := ra_apply_name_pres hinv2 hname
          exact ⟨hinv3, (hmono1.trans hmono2).trans hmono3⟩

/-- Updating only the links of one register preserves the invariant. -/
theorem rainv_set_links {s : RAState} {k : Nat} {rk rk' : RARegister}
    (hreg : s.reg? k = some rk) (hnum : rk'.number = rk.number) (hname : rk'.name = rk.name)
    (hinv : RAInv s) :
    RAInv { s with regs := s.regs.set k rk' } ∧
    RAMono s { s with regs := s.regs.set k rk' } := by
  obtain ⟨hlen, hslot, hrnum, hnamed⟩ := hinv
  have hklt : k < s.regs.length := by
    by_contra hcc
    rw [RAState.reg?, List.get?_eq_getElem?, List.getElem?_eq_none (by omega)] at hreg
    cases hreg
  have hregs : ∀ id r, s.reg? id = some r →
      ∃ r', ({ s with regs := s.regs.set k rk' } : RAState).reg? id = some r' ∧
        r'.number = r.number ∧ r'.name = r.name := by
    intro id r hr
    by_cases hid : id = k
    · subst hid
      rw [hreg] at hr
      injection hr with hr
      subst hr
      refine ⟨rk', ?_, hnum, hname⟩
      rw [RAState.reg?]
      simp only [List.get?_eq_getElem?]
      rw [List.getElem?_set_self hklt]
    · refine ⟨r, ?_, rfl, rfl⟩
      rw [RAState.reg?]
      simp only [List.get?_eq_getElem?]
      rw [List.getElem?_set_ne (fun hcc => hid hcc.symm)]
      rw [RAState.reg?] at hr
      simpa [List.get?_eq_getElem?] using hr
  refine ⟨⟨hlen, ?_, ?_, ?_⟩, ?_⟩
  · intro n id hn
    obtain ⟨r, hr, hnr⟩ := hslot n id hn
    obtain ⟨r', hr', hn', _⟩ := hregs id r hr
    exact ⟨r', hr', by rw [hn', hnr]⟩
  · intro id r' hr' hge
    rw [RAState.reg?] at hr'
    simp only [List.get?_eq_getElem?] at hr'
    by_cases hid : id = k
    · subst hid
      rw [List.getElem?_set_self hklt] at hr'
      injection hr' with hr'
      subst hr'
      have := hrnum _ rk hreg (by omega)
      constructor
      · omega
      · rw [hnum]
        exact this.2
    · rw [List.getElem?_set_ne (fun hcc => hid hcc.symm)] at hr'
      exact hrnum id r' (by rwa [RAState.reg?, List.get?_eq_getElem?]) hge
  · intro p hp
    have := hnamed p hp
    simpa using this
  · intro id r hr
    obtain ⟨r', hr', hn', hm'⟩ := hregs id r hr
    exact ⟨r', hr', fun _ => hn', fun _ => hm'⟩

/-- The first link step preserves the invariant. -/
theorem ra_link_after_pres {s : RAState} {i j : Nat} {a : RARegister} {s1 : RAState}
    (hrega : s.reg? i = some a) (hinv : RAInv s)
    (h : ra_link_after s i j a = .ok s1) : RAInv s1 ∧ RAMono s s1 := by
  rw [ra_link_after] at h
  split at h
  next =>
    injection h with h
    subst h
    exact rainv_set_links hrega rfl rfl hinv
  next =>
    split at h
    next => cases h
    next =>
      injection h with h
      subst h
      exact ⟨hinv, RAMono.refl s⟩

/-- The second link step preserves the invariant. -/
theorem ra_link_before_pres {s : RAState} {i j : Nat} {b : RARegister} {s1 : RAState}
    (hregb : s.reg? j = some b) (hinv : RAInv s)
    (h : ra_link_before s i j b = .ok s1) : RAInv s1 ∧ RAMono s s1 := by
  rw [ra_link_before] at h
  split at h
  next =>
    injection h with h
    subst h
    exact rainv_set_links hregb rfl rfl hinv
  next =>
    split at h
    next => cases h
    next =>
      injection h with h
      subst h
      exact ⟨hinv, RAMono.refl s⟩

/-- `constrain` preserves the invariant (it touches only links). -/
theorem ra_constrain_pres {s : RAState} {i j : Nat} {s3 : RAState}
    (hinv : RAInv s) (h : ra_constrain s i j = .ok s3) :
    RAInv s3 ∧ RAMono s s3 := by
  rw [ra_constrain] at h
  split at h
  next => cases h
  next a hrega =>
    split at h
    next => cases h
    next s1 h1 =>
      obtain ⟨hinv1, hmono1⟩ := ra_link_after_pres hrega hinv h1
      split at h
      next => cases h
      next b hregb =>
        split at h
        next => cases h
        next s2 h2 =>
          obtain ⟨hinv2, hmono2⟩ := ra_link_before_pres hregb hinv1 h2
          split at h
          next a2 b2 hra2 hrb2 =>
            split at h
            next => cases h
            next =>
              injection h with h
              subst h
              exact ⟨hinv2, hmono1.trans hmono2⟩
          next => cases h

/-- `assign_number` preserves the invariant when the number fits a slot. -/
theorem ra_assign_number_pres {s : RAState} {id number : Nat} {s2 : RAState}
    (hinv : RAInv s) (hlt : number < 256)
    (h : ra_assign_number s id number = .ok s2) :
    RAInv s2 ∧ RAMono s s2 := by
  obtain ⟨hlen, hslot, hnum, hnamed⟩ := hinv
  rw [ra_assign_number] at h
  split at h
  next => cases h
  next r hreg =>
    split at h
    next hrneg =>
      split at h
      next hocc => cases h
      next hocc =>
        injection h with h
        subst h
        have hidlt : id < s.regs.length := by
          by_contra hcc
          rw [RAState.reg?, List.get?_eq_getElem?, List.getElem?_eq_none (by omega)] at hreg
          cases hreg
        refine ⟨⟨by simp [hlen], ?_, ?_, ?_⟩, ?_⟩
        · intro n id1 hn
          simp only [List.get?_eq_getElem?] at hn
          by_cases hnn : number = n
          · subst hnn
            rw [List.getElem?_set_self (by omega)] at hn
            injection hn with hn
            injection hn with hn
            subst hn
            refine ⟨{ r with number := (number : Int) }, ?_, rfl⟩
            rw [RAState.reg?]
            simp only [List.get?_eq_getElem?]
            rw [List.getElem?_set_self hidlt]
          · rw [List.getElem?_set_ne (by omega)] at hn
            obtain ⟨r1, hr1, hnum1⟩ := hslot n id1 (by rwa [List.get?_eq_getElem?])
            have hid1 : id1 ≠ id := by
              intro hcontra
              subst hcontra
              rw [hreg] at hr1
              injection hr1 with hr1
              subst hr1
              omega
            refine ⟨r1, ?_, hnum1⟩
            rw [RAState.reg?]
            simp only [List.get?_eq_getElem?]
            rw [List.getElem?_set_ne (fun hcc => hid1 hcc.symm)]
            rw [RAState.reg?] at hr1
            simpa [List.get?_eq_getElem?] using hr1
        · intro id1 r1 hr1 hge1
          rw [RAState.reg?] at hr1
          simp only [List.get?_eq_getElem?] at hr1
          by_cases hid1 : id1 = id
          · subst hid1
            rw [List.getElem?_set_self hidlt] at hr1
            injection hr1 with hr1
            subst hr1
            refine ⟨by show (number : Int) < 256; omega, ?_⟩
            show (s.numbered_regs.set number (some id1)).get? ((number : Int)).toNat =
              some (some id1)
            rw [Int.toNat_natCast]
            simp only [List.get?_eq_getElem?]
            rw [List.getElem?_set_self (by omega)]
          · rw [List.getElem?_set_ne (fun hcc => hid1 hcc.symm)] at hr1
            obtain ⟨hlt1, hsl1⟩ := hnum id1 r1 (by rwa [RAState.reg?, List.get?_eq_getElem?]) hge1
            refine ⟨hlt1, ?_⟩
            have hslne : r1.number.toNat ≠ number := by
              intro hcc
              have hthis := hsl1
              rw [hcc] at hthis
              rw [RAState.slot] at hocc
              have hgd : s.numbered_regs.getD number none = some id1 := by
                rw [List.getD_eq_getElem?_getD, ← List.get?_eq_getElem?, hthis]
                rfl
              rw [hgd] at hocc
              simp at hocc
            simp only [List.get?_eq_getElem?]
            rw [List.getElem?_set_ne (fun hcc => hslne hcc.symm)]
            simpa [List.get?_eq_getElem?] using hsl1
        · intro p hp
          simpa using hnamed p hp
        · intro id1 r1 hr1
          by_cases hid1 : id1 = id
          · subst hid1
            rw [hreg] at hr1
            injection hr1 with hr1
            subst hr1
            refine ⟨{ r with number := (number : Int) }, ?_, ?_, ?_⟩
            · rw [RAState.reg?]
              simp only [List.get?_eq_getElem?]
              rw [List.getElem?_set_self hidlt]
            · intro hge1
              omega
            · intro _
              rfl
          · refine ⟨r1, ?_, fun _ => rfl, fun _ => rfl⟩
            rw [RAState.reg?]
            simp only [List.get?_eq_getElem?]
            rw [List.getElem?_set_ne (fun hcc => hid1 hcc.symm)]
            rw [RAState.reg?] at hr1
            simpa [List.get?_eq_getElem?] using hr1
    next hrneg =>
      split at h
      next hne => cases h
      next hne =>
        injection h with h
        subst h
        exact ⟨⟨hlen, hslot, hnum, hnamed⟩, RAMono.refl s⟩

/-- One `assign_all` loop body preserves the invariant. -/
theorem ra_assign_one_pres {s : RAState} {id : Nat} {s2 : RAState}
    (hinv : RAInv s) (h : ra_assign_one s id = .ok s2) :
    RAInv s2 ∧ RAMono s s2 := by
  rw [ra_assign_one] at h
  split at h
  next => cases h
  next r hreg =>
    split at h
    next =>
      injection h with h
      subst h
      exact ⟨hinv, RAMono.refl s⟩
    next =>
      split at h
      next => cases h
      next num d w hw =>
        refine ra_assign_number_pres hinv ?_ h
        have h1 : (0 : Int) ≤ (num - (d : Int)) % 256 := Int.emod_nonneg _ (by decide)
        have h2 : (num - (d : Int)) % 256 < 256 := Int.emod_lt_of_pos _ (by decide)
        omega
      next next_delta hw =>
        split at h
        next => cases h
        next num d w hw2 =>
          refine ra_assign_number_pres hinv ?_ h
          have h1 : (0 : Int) ≤ (num + (d : Int)) % 256 := Int.emod_nonneg _ (by decide)
          have h2 : (num + (d : Int)) % 256 < 256 := Int.emod_lt_of_pos _ (by decide)
          omega
        next prev_delta hw2 =>
          split at h
          next => cases h
          next space hsp =>
            exact ra_assign_number_pres hinv (Nat.mod_lt _ (by decide)) h

/-- Folding the loop body over any id list preserves the invariant. -/
theorem foldlM_assign_pres : ∀ (l : List Nat) (s s2 : RAState),
    RAInv s → l.foldlM ra_assign_one s = .ok s2 → RAInv s2 ∧ RAMono s s2
  | [], s, s2, hinv, h => by
    rw [List.foldlM_nil] at h
    simp only [pure, Except.pure] at h
    injection h with h
    subst h
    exact ⟨hinv, RAMono.refl s⟩
  | a :: l, s, s2, hinv, h => by
    rw [List.foldlM_cons] at h
    cases h1 : ra_assign_one s a with
    | error e =>
      rw [h1] at h
      simp only [bind, Except.bind] at h
      cases h
    | ok s1 =>
      rw [h1] at h
      simp only [bind, Except.bind] at h
      obtain ⟨hinv1, hmono1⟩ := ra_assign_one_pres hinv h1
      obtain ⟨hinv2, hmono2⟩ := foldlM_assign_pres l s1 s2 hinv1 h
      exact ⟨hinv2, hmono1.trans hmono2⟩

/-- Success of `check_named` means every named register is numbered. -/
theorem ra_check_named_ok {s : RAState} (h : ra_check_named s = .ok ()) :
    ∀ p ∈ s.named_regs, ∃ r, s.reg? p.2 = some r ∧ 0 ≤ r.number := by
  rw [ra_check_named] at h
  split at h
  next hall =>
    intro p hp
    have hthis := List.all_eq_true.mp hall p hp
    cases hreg : s.reg? p.2 with
    | none =>
      rw [hreg] at hthis
      exact absurd hthis (by simp)
    | some r =>
      rw [hreg] at hthis
      exact ⟨r, rfl, of_decide_eq_true hthis⟩
  next => cases h

/-- `assign_all` preserves the invariant and validates its checks. -/
theorem ra_assign_all_pres {s s2 : RAState} (hinv : RAInv s)
    (h : ra_assign_all s = .ok s2) :
    RAInv s2 ∧ RAMono s s2 ∧ ra_check_named s2 = .ok () := by
  rw [ra_assign_all] at h
  split at h
  next => cases h
  next s1 hfold =>
    split at h
    next => cases h
    next u hnamed =>
      split at h
      next => cases h
      next u2 hnumbered =>
        injection h with h
        subst h
        obtain ⟨hinv1, hmono1⟩ := foldlM_assign_pres _ s s1 hinv hfold
        refine ⟨hinv1, hmono1, ?_⟩
        cases u
        exact hnamed

/-- Each assembler operation preserves the invariant. -/
theorem runOp_pres {s : RAState} {op : RAOp} {s2 : RAState}
    (hinv : RAInv s) (h : runOp s op = .ok s2) : RAInv s2 ∧ RAMono s s2 := by
  cases op with
  | create name number =>
    rw [runOp] at h
    cases hg : ra_get_or_create s name number with
    | error e =>
      rw [hg] at h
      simp only [Except.map] at h
      cases h
    | ok p =>
      obtain ⟨s1, id1⟩ := p
      rw [hg] at h
      simp only [Except.map] at h
      injection h with h
      subst h
      exact ra_get_or_create_pres hinv hg
  | constrainIds i j =>
    rw [runOp] at h
    exact ra_constrain_pres hinv h

/-- Folding operations preserves the invariant. -/
theorem foldlM_runOp_inv : ∀ (ops : List RAOp) (s s2 : RAState),
    RAInv s → ops.foldlM runOp s = .ok s2 → RAInv s2
  | [], s, s2, hinv, h => by
    rw [List.foldlM_nil] at h
    simp only [pure, Except.pure] at h
    injection h with h
    subst h
    exact hinv
  | op :: ops, s, s2, hinv, h => by
    rw [List.foldlM_cons] at h
    cases h1 : runOp s op with
    | error e =>
      rw [h1] at h
      simp only [bind, Except.bind] at h
      cases h
    | ok s1 =>
      rw [h1] at h
      simp only [bind, Except.bind] at h
      exact foldlM_runOp_inv ops s1 s2 (runOp_pres hinv h1).1 h

/-- Every reachable assigner state satisfies the invariant. -/
theorem runOps_inv {ops : List RAOp} {s : RAState} (h : runOps ops = .ok s) : RAInv s :=
  foldlM_runOp_inv ops RAState.initial s rainv_initial h

set_option maxRecDepth 8000 in
/-- C8: on any state the assembler can reach, a successful `assign_all`
leaves every named register with a number in [0, 255], never gives two
registers the same number, and keeps the number of every register that
already had one (in particular every explicitly pinned register). -/
theorem c8_assign_all_soundness (ops : List RAOp) (s s2 : RAState)
    (hrun : runOps ops = .ok s) (hassign : ra_assign_all s = .ok s2) :
    (∀ p ∈ s2.named_regs,
      ∃ r, s2.reg? p.2 = some r ∧ 0 ≤ r.number ∧ r.number < 256) ∧
    (∀ i j ri rj, s2.reg? i = some ri → s2.reg? j = some rj →
      0 ≤ ri.number → ri.number = rj.number → i = j) ∧
    (∀ id r, s.reg? id = some r → 0 ≤ r.number →
      ∃ r2, s2.reg? id = some r2 ∧ r2.number = r.number) := by
  have hinv := runOps_inv hrun
  obtain ⟨hinv2, hmono, hchk⟩ := ra_assign_all_pres hinv hassign
  obtain ⟨hlen2, hslot2, hnum2, hnamed2⟩ := hinv2
  refine ⟨?_, ?_, ?_⟩
  · intro p hp
    obtain ⟨r, hr, hge⟩ := ra_check_named_ok hchk p hp
    exact ⟨r, hr, hge, (hnum2 _ r hr hge).1⟩
  · intro i j ri rj hri hrj hge heq
    have h1 := (hnum2 i ri hri hge).2
    have h2 := (hnum2 j rj hrj (heq ▸ hge)).2
    rw [heq] at h1
    rw [h1] at h2
    injection h2 with h2
    injection h2 with h2
  · intro id r hr hge
    obtain ⟨r2, hr2, hn2, _⟩ := hmono id r hr
    exact ⟨r2, hr2, hn2 hge⟩

set_option maxRecDepth 8000 in
/-- The soundness statement holds at the one-register pinned state. -/
theorem c8_assign_all_soundness_witness :
    (∀ p ∈ c8w_state.named_regs,
      ∃ r, c8w_state.reg? p.2 = some r ∧ 0 ≤ r.number ∧ r.number < 256) ∧
    (∀ i j ri rj, c8w_state.reg? i = some ri → c8w_state.reg? j = some rj →
      0 ≤ ri.number → ri.number = rj.number → i = j) ∧
    (∀ id r, c8w_state.reg? id = some r → 0 ≤ r.number →
      ∃ r2, c8w_state.reg? id = some r2 ∧ r2.number = r.number) :=
  c8_assign_all_soundness [RAOp.create "x" 5] c8w_state c8w_state (by rfl) (by rfl)

/-- Helper: an association-list lookup misses when no key matches. -/
theorem lookupAssoc_eq_none {α β : Type _} [DecidableEq α] (l : List (α × β)) (k : α)
    (h : ∀ p ∈ l, p.1 ≠ k) : lookupAssoc l k = none := by
  induction l with
  | nil => rfl
  | cons p rest ih =>
    rw [lookupAssoc, if_neg (h p (List.mem_cons_self _ _))]
    exact ih (fun q hq => h q (List.mem_cons_of_mem _ hq))

/-- Helper: a successful association-list lookup is a member. -/
theorem lookupAssoc_mem {α β : Type _} [DecidableEq α] (l : List (α × β)) (k : α) (v : β)
    (h : lookupAssoc l k = some v) : (k, v) ∈ l := by
  induction l with
  | nil => exact absurd h (by simp [lookupAssoc])
  | cons p rest ih =>
    rw [lookupAssoc] at h
    by_cases hk : p.1 = k
    · rw [if_pos hk] at h
      injection h with h
      subst h; subst hk
      exact List.mem_cons_self _ _
    · rw [if_neg hk] at h
      exact List.mem_cons_of_mem _ (ih h)

/-- Helper for C7: under a strictly ascending key list whose last key
closes the window `[z, z + rem)`, the emission loop succeeds and yields,
for each index, the label offset or the sentinel. -/
theorem ft_loop_spec : ∀ (rem z : Nat) (labels : List (Nat × Int)),
    List.Pairwise (fun a b => a.1 < b.1) labels →
    (∀ p ∈ labels, z ≤ p.1 ∧ p.1 < z + rem ∧ 0 ≤ p.2) →
    (labels = [] → rem = 0) →
    (∀ last, labels.getLast? = some last → last.1 + 1 = z + rem) →
    ft_loop labels z rem =
      .ok ((List.range rem).map (fun k =>
        match lookupAssoc labels (z + k) with
        | some off => off.toNat
        | none => (0xFFFFFFFF : Nat)))
  | 0, z, labels, _, _, _, _ => by simp [ft_loop]
  | rem + 1, z, [], _, _, hnil, _ => by simp at hnil
  | rem + 1, z, (i, off) :: rest, hp, hb, _, hlast => by
    have hi : z ≤ i := (hb (i, off) (List.mem_cons_self _ _)).1
    have hrest_gt : ∀ p ∈ rest, i < p.1 := (List.pairwise_cons.mp hp).1
    by_cases hgt : i > z
    · -- sentinel entry at z; keep the whole label list for z + 1
      have ih := ft_loop_spec rem (z + 1) ((i, off) :: rest)
        hp
        (by
          intro p hpmem
          rcases List.mem_cons.mp hpmem with heq | htail
          · subst heq
            have h2 := (hb (i, off) (List.mem_cons_self _ _)).2
            exact ⟨hgt, by omega, h2.2⟩
          · have h1 := hrest_gt p htail
            have h2 := hb p (List.mem_cons_of_mem _ htail)
            exact ⟨by omega, by omega, h2.2.2⟩)
        (by intro h; cases h)
        (by
          intro last hl
          have := hlast last hl
          omega)
      have hnone : lookupAssoc ((i, off) :: rest) z = none := by
        apply lookupAssoc_eq_none
        intro p hpmem
        rcases List.mem_cons.mp hpmem with heq | htail
        · subst heq; simp; omega
        · have := hrest_gt p htail; simp; omega
      have hlist : ((List.range (rem + 1)).map (fun k =>
          match lookupAssoc ((i, off) :: rest) (z + k) with
          | some off => off.toNat
          | none => (0xFFFFFFFF : Nat))) =
          0xFFFFFFFF :: ((List.range rem).map (fun k =>
            match lookupAssoc ((i, off) :: rest) (z + 1 + k) with
            | some off => off.toNat
            | none => (0xFFFFFFFF : Nat))) := by
        rw [List.range_succ_eq_map]
        simp only [List.map_cons, List.map_map, Nat.add_zero, hnone]
        congr 1
        apply List.map_congr_left
        intro k _
        have harith : z + (k + 1) = z + 1 + k := by omega
        simp only [Function.comp_apply, harith]
      rw [ft_loop, if_pos hgt, ih, hlist]
      rfl
    · have hiz : i = z := by omega
      subst hiz
      have hoffpos : ¬ off < 0 := by
        have := (hb (i, off) (List.mem_cons_self _ _)).2.2
        omega
      have ih := ft_loop_spec rem (i + 1) rest
        (List.pairwise_cons.mp hp).2
        (by
          intro p hpmem
          have h1 := hrest_gt p hpmem
          have h2 := hb p (List.mem_cons_of_mem _ hpmem)
          exact ⟨by omega, by omega, h2.2.2⟩)
        (by
          intro hrnil
          subst hrnil
          have := hlast (i, off) rfl
          omega)
        (by
          intro last hl
          have : ((i, off) :: rest).getLast? = some last := by
            cases rest with
            | nil => cases hl
            | cons r rs => rw [List.getLast?_cons_cons]; exact hl
          have := hlast last this
          omega)
      have hsome : lookupAssoc ((i, off) :: rest) i = some off := by
        rw [lookupAssoc, if_pos rfl]
      have hlist : ((List.range (rem + 1)).map (fun k =>
          match lookupAssoc ((i, off) :: rest) (i + k) with
          | some off => off.toNat
          | none => (0xFFFFFFFF : Nat))) =
          off.toNat :: ((List.range rem).map (fun k =>
            match lookupAssoc rest (i + 1 + k) with
            | some off => off.toNat
            | none => (0xFFFFFFFF : Nat))) := by
        rw [List.range_succ_eq_map]
        simp only [List.map_cons, List.map_map, Nat.add_zero, hsome]
        congr 1
        apply List.map_congr_left
        intro k _
        have hkey : lookupAssoc ((i, off) :: rest) (i + 1 + k) =
            lookupAssoc rest (i + 1 + k) := by
          rw [lookupAssoc, if_neg (by simp; omega)]
        have harith : i + (k + 1) = i + 1 + k := by omega
        simp only [Function.comp_apply, harith, hkey]
      rw [ft_loop, if_neg hgt, if_pos rfl, if_neg hoffpos, ih, hlist]
      rfl

/-- Helper: in a strictly ascending association list the last key is the
maximum. -/
theorem pairwise_key_le_last : ∀ (l : List (Nat × Int)) (last : Nat × Int),
    List.Pairwise (fun a b => a.1 < b.1) l → l.getLast? = some last →
    ∀ p ∈ l, p.1 ≤ last.1
  | [], _, _, hl, _, hm => by cases hl
  | a :: rest, last, hp, hl, p, hm => by
    cases rest with
    | nil =>
      have : a = last := by
        have : (a :: ([] : List (Nat × Int))).getLast? = some a := rfl
        rw [this] at hl
        injection hl
      rcases List.mem_cons.mp hm with heq | habs
      · subst heq; rw [this]
      · cases habs
    | cons b bs =>
      have hl' : (b :: bs).getLast? = some last := by
        rw [List.getLast?_cons_cons] at hl
        exact hl
      have hlastmem : last ∈ b :: bs := by
        obtain ⟨h9, h10⟩ := List.mem_getLast?_eq_getLast (Option.mem_def.mpr hl')
        rw [h10]
        exact List.getLast_mem h9
      rcases List.mem_cons.mp hm with heq | htail
      · subst heq
        have := (List.pairwise_cons.mp hp).1 last hlastmem
        omega
      · exact pairwise_key_le_last (b :: bs) last (List.pairwise_cons.mp hp).2 hl' p htail

/-- C7: for every successfully assembled program the emitted function
table has exactly (highest used label index + 1) entries; entry `i` is
the code offset of the label at index `i` and is the sentinel 0xFFFFFFFF
at exactly the indexes with no label. -/
theorem c7_function_table (labels : List (Nat × Int))
    (hne : labels ≠ [])
    (hsorted : List.Pairwise (fun a b => a.1 < b.1) labels)
    (hoff : ∀ p ∈ labels, 0 ≤ p.2 ∧ p.2 < 0xFFFFFFFF) :
    build_function_table labels = .ok (function_table_spec labels) ∧
    (∀ last, labels.getLast? = some last →
      (function_table_spec labels).length = last.1 + 1) ∧
    (∀ i, i < (function_table_spec labels).length →
      ((function_table_spec labels).getD i 0 = 0xFFFFFFFF ↔ lookupAssoc labels i = none)) := by
  cases hlast : labels.getLast? with
  | none => exact absurd (List.getLast?_eq_none_iff.mp hlast) hne
  | some last =>
    obtain ⟨maxI, lastOff⟩ := last
    have hbound := pairwise_key_le_last labels (maxI, lastOff) hsorted hlast
    have hft := ft_loop_spec (maxI + 1) 0 labels hsorted
      (by
        intro p hpmem
        exact ⟨Nat.zero_le _, by have := hbound p hpmem; omega, (hoff p hpmem).1⟩)
      (by intro h; exact absurd h hne)
      (by
        intro last' hl'
        rw [hlast] at hl'
        injection hl' with h
        subst h
        omega)
    have hspec : function_table_spec labels =
        (List.range (maxI + 1)).map (fun k =>
          match lookupAssoc labels k with
          | some off => off.toNat
          | none => (0xFFFFFFFF : Nat)) := by
      rw [function_table_spec, hlast]
      try rfl
    refine ⟨?_, ?_, ?_⟩
    · rw [build_function_table, hlast]
      show ft_loop labels 0 (maxI + 1) = _
      rw [hft, hspec]
      congr 1
      apply List.map_congr_left
      intro k _
      simp only [Nat.zero_add]
    · intro last' hl'
      injection hl' with h
      subst h
      rw [hspec]
      simp
    · intro i hi
      rw [hspec] at hi ⊢
      simp only [List.length_map, List.length_range] at hi
      have hget : ((List.range (maxI + 1)).map (fun k =>
          match lookupAssoc labels k with
          | some off => off.toNat
          | none => (0xFFFFFFFF : Nat))).getD i 0 =
          (match lookupAssoc labels i with
           | some off => off.toNat
           | none => (0xFFFFFFFF : Nat)) := by
        rw [List.getD_eq_getElem?_getD, List.getElem?_map, List.getElem?_range hi]
        rfl
      rw [hget]
      cases hlk : lookupAssoc labels i with
      | none => simp
      | some off =>
        have hmem := lookupAssoc_mem labels i off hlk
        have hb : (0 : Int) ≤ off ∧ off < 0xFFFFFFFF := hoff (i, off) hmem
        show off.toNat = 0xFFFFFFFF ↔ some off = none
        constructor
        · intro h
          exfalso
          have : off.toNat < 0xFFFFFFFF := by omega
          omega
        · intro h
          cases h

/-- C7 (witness): the function table of labels pinned to indexes 0 and 2
with offsets 0 and 8: three entries with the sentinel at index 1. -/
theorem c7_function_table_witness :
    build_function_table [(0, (0 : Int)), (2, 8)] = .ok [0, 0xFFFFFFFF, 8] ∧
    lookupAssoc ([(0, (0 : Int)), (2, 8)]) 1 = none ∧
    (function_table_spec [(0, (0 : Int)), (2, 8)]).getD 1 0 = 0xFFFFFFFF := by
  have h := c7_function_table [(0, (0 : Int)), (2, 8)] (by decide)
    (by decide) (by decide)
  exact ⟨h.1.trans (by decide), by decide, (h.2.2 1 (by decide)).mpr (by decide)⟩

end QuestScript
